import Mathlib

/-!
# RedisReentrantLock

A shallow embedding of `lock.go` and `common.go` (package `redislock`):
the handle `RedisReentrantLock`, its constructor `NewRedisReentrantLock`,
and the methods `Lock`, `Unlock` and `refresh`.

* Go `int` is a 64-bit two's complement integer; arithmetic wraps (`wrapInt`).
* A Go `map[string]int` is either `nil` or a finite map; reading a `nil` map
  yields "absent", `delete` on it does nothing, assigning into it panics.
* The store client is an interface, hence a parameter: every method takes the
  state of the world behind the client and returns its reply and the next
  state of that world.
* A call returns normally or panics; either way the effects performed up to
  that point (handle fields written, store calls issued, goroutines started,
  cancel functions invoked) are recorded in the outcome.
* The field `mu` only serialises calls on one handle; calls are modelled as
  atomic steps, so it does not appear.
* The goroutine that `refresh` starts is a loop over wake-ups of its `select`
  (`refreshRound`, `refreshLoop`); which renewers run is read off the events of
  the calls (`activeRenewers`).
-/

namespace RedisLock

/-! ## Go values -/

/-- Two's complement wrap-around of a mathematical integer into the range of Go `int`. -/
def wrapInt (x : Int) : Int :=
  (x + 9223372036854775808) % 18446744073709551616 - 9223372036854775808

/-- A value of Go type `int` (64 bits). -/
structure GoInt where
  val : Int
  lo : -9223372036854775808 ≤ val
  hi : val ≤ 9223372036854775807
deriving DecidableEq

namespace GoInt

/-- Conversion with wrap-around. -/
def ofInt (x : Int) : GoInt :=
  ⟨wrapInt x, by unfold wrapInt; omega, by unfold wrapInt; omega⟩

/-- The constant `1` of type `int`. -/
def one : GoInt := ⟨1, by decide, by decide⟩

/-- Go `a + b` on `int`. -/
def add (a b : GoInt) : GoInt := ofInt (a.val + b.val)

/-- Go `a - b` on `int`. -/
def sub (a b : GoInt) : GoInt := ofInt (a.val - b.val)

end GoInt

/-- A Go `map[string]int`: `none` is the `nil` map. -/
abbrev GoMap := Option (String → Option GoInt)

namespace GoMap

/-- The map made by `make(map[string]int)` or an empty literal. -/
def empty : GoMap := some (fun _ => none)

/-- The comma-ok read `v, ok := m[k]`; a `nil` map has no entry. -/
def lookup (m : GoMap) (k : String) : Option GoInt :=
  match m with
  | none => none
  | some f => f k

/-- The assignment `m[k] = v`; `none` is the panic on a `nil` map. -/
def assign (m : GoMap) (k : String) (v : GoInt) : Option GoMap :=
  match m with
  | none => none
  | some f => some (some (fun j => if j = k then some v else f j))

/-- The builtin `delete(m, k)`; a no-op on a `nil` map. -/
def delete (m : GoMap) (k : String) : GoMap :=
  match m with
  | none => none
  | some f => some (fun j => if j = k then none else f j)

end GoMap

/-- A Go `error` value that is not `nil`. -/
inductive GoError where
  | errorsNew (text : String)
  | fromClient (code : Nat)
deriving DecidableEq, Repr

/-- A value of type `interface{}`, tagged with its dynamic type, as `Cmd.Result` returns it. -/
inductive GoAny where
  | nil
  | int (v : Int)
  | int64 (v : Int)
  | string (s : String)
  | bool (b : Bool)
deriving DecidableEq, Repr

/-- The comparison `res == 0` of an `interface{}` with the untyped constant `0`: the constant
takes its default type `int`, and the two are equal only when the dynamic type is `int` too. -/
def GoAny.eqZero : GoAny → Bool
  | GoAny.int v => decide (v = 0)
  | _ => false

/-- A `context.Context`: a root context of the caller or one derived by `context.WithCancel`. -/
inductive Context where
  | root (id : Nat)
  | withCancel (parent : Context) (serial : Nat)
deriving DecidableEq, Repr

/-- A `context.CancelFunc`, identified by the context it cancels. -/
structure CancelFunc where
  target : Context
deriving DecidableEq, Repr

/-! ## Constants of `lock.go` -/

/-- The constant `10 * time.Second`, a `time.Duration` in nanoseconds. -/
def defaultExpiration : Int := 10 * 1000000000

/-- The Lua source sent with `Eval`. -/
def script : String :=
  "\n\tif redis.call(\"GET\", KEYS[1]) == ARGV[1] then\n\t\t\treturn redis.call(\"DEL\", KEYS[1])\n\t\telse\n\t\t\treturn 0\n\t\tend\n\t"

/-! ## The client interface of `common.go` -/

/-- The interface `RedisClient`, over the state `σ` of whatever stands behind it. Each method
returns the `.Result()` of its command, a value and an `error` (`none` is `nil`). -/
structure RedisClient (σ : Type) where
  Expire : Context → String → Int → σ → (Bool × Option GoError) × σ
  Del : Context → List String → σ → (Int × Option GoError) × σ
  SetNX : Context → String → String → Int → σ → (Bool × Option GoError) × σ
  Eval : Context → String → List String → List String → σ → (GoAny × Option GoError) × σ

/-- What a call makes observable outside the handle. -/
inductive Event where
  | SetNX (ctx : Context) (key value : String) (expiration : Int)
  | Eval (ctx : Context) (src : String) (keys args : List String)
  | Expire (ctx : Context) (key : String) (expiration : Int)
  | Del (ctx : Context) (keys : List String)
  | goRefresh (ctx : Context)
  | cancelCall (f : CancelFunc)
deriving DecidableEq, Repr

/-- Whether an event is a call of the store client. -/
def Event.isStoreCall : Event → Bool
  | Event.goRefresh _ => false
  | Event.cancelCall _ => false
  | _ => true

/-! ## The handle -/

/-- The struct `RedisReentrantLock` (without `mu`); `cancelFunc = none` is the `nil` func. -/
structure RedisReentrantLock (σ : Type) where
  Client : RedisClient σ
  Key : String
  Value : String
  locks : GoMap
  cancelFunc : Option CancelFunc

/-- The constructor: `locks` and `cancelFunc` keep their zero values. -/
def NewRedisReentrantLock {σ : Type} (client : RedisClient σ) (key value : String) :
    RedisReentrantLock σ :=
  ⟨client, key, value, none, none⟩

/-- The world outside the handle: the state behind the client and the serial number of the
next context that `context.WithCancel` derives. -/
structure World (σ : Type) where
  store : σ
  nextCtx : Nat

/-- How a call ends. -/
inductive Ret where
  | returned (ok : Bool) (err : Option GoError)
  | panicked (msg : String)
deriving DecidableEq, Repr

/-- The result of a call: how it ended, the handle and the world after it, and the events it
produced, in order. -/
structure Outcome (σ : Type) where
  ret : Ret
  rrl : RedisReentrantLock σ
  world : World σ
  events : List Event

/-- The method `refresh`: it starts the renewer goroutine on `ctx` and returns. -/
def refresh (ctx : Context) : List Event := [Event.goRefresh ctx]

/-- The method `Lock`. -/
def Lock {σ : Type} (rrl : RedisReentrantLock σ) (ctx : Context) (w : World σ) : Outcome σ :=
  match rrl.locks.lookup rrl.Key with
  | some count =>
    match rrl.locks.assign rrl.Key (count.add GoInt.one) with
    | some m => ⟨Ret.returned true none, ⟨rrl.Client, rrl.Key, rrl.Value, m, rrl.cancelFunc⟩, w, []⟩
    | none => ⟨Ret.panicked "assignment to entry in nil map", rrl, w, []⟩
  | none =>
    let reply := rrl.Client.SetNX ctx rrl.Key rrl.Value 0 w.store
    let w1 : World σ := ⟨reply.2, w.nextCtx⟩
    let ev := [Event.SetNX ctx rrl.Key rrl.Value 0]
    match reply.1.2 with
    | some err => ⟨Ret.returned false (some err), rrl, w1, ev⟩
    | none =>
      if reply.1.1 = false then
        ⟨Ret.returned false (some (GoError.errorsNew "failed to acquire lock for key")), rrl, w1, ev⟩
      else
        let c := Context.withCancel ctx w.nextCtx
        let w2 : World σ := ⟨reply.2, w.nextCtx + 1⟩
        let rrl1 : RedisReentrantLock σ :=
          ⟨rrl.Client, rrl.Key, rrl.Value, rrl.locks, some ⟨c⟩⟩
        let ev2 := ev ++ refresh c
        match rrl1.locks.assign rrl1.Key GoInt.one with
        | some m =>
          ⟨Ret.returned true none, ⟨rrl1.Client, rrl1.Key, rrl1.Value, m, rrl1.cancelFunc⟩, w2, ev2⟩
        | none => ⟨Ret.panicked "assignment to entry in nil map", rrl1, w2, ev2⟩

/-- The method `Unlock`. -/
def Unlock {σ : Type} (rrl : RedisReentrantLock σ) (ctx : Context) (w : World σ) : Outcome σ :=
  match rrl.locks.lookup rrl.Key with
  | some count =>
    if count.val = 1 then
      let rrl1 : RedisReentrantLock σ :=
        ⟨rrl.Client, rrl.Key, rrl.Value, rrl.locks.delete rrl.Key, rrl.cancelFunc⟩
      let reply := rrl1.Client.Eval ctx script [rrl1.Key] [rrl1.Value] w.store
      let w1 : World σ := ⟨reply.2, w.nextCtx⟩
      let ev := [Event.Eval ctx script [rrl1.Key] [rrl1.Value]]
      match reply.1.2 with
      | some err => ⟨Ret.returned false (some err), rrl1, w1, ev⟩
      | none =>
        if reply.1.1.eqZero = true then
          ⟨Ret.returned false (some (GoError.errorsNew "failed to release lock for key")),
            rrl1, w1, ev⟩
        else
          match rrl1.cancelFunc with
          | some f => ⟨Ret.returned true none, rrl1, w1, ev ++ [Event.cancelCall f]⟩
          | none =>
            ⟨Ret.panicked "runtime error: invalid memory address or nil pointer dereference",
              rrl1, w1, ev⟩
    else
      match rrl.locks.assign rrl.Key (count.sub GoInt.one) with
      | some m =>
        ⟨Ret.returned true none, ⟨rrl.Client, rrl.Key, rrl.Value, m, rrl.cancelFunc⟩, w, []⟩
      | none => ⟨Ret.panicked "assignment to entry in nil map", rrl, w, []⟩
  | none => ⟨Ret.returned true none, rrl, w, []⟩

/-! ## Sequences of calls on one handle -/

/-- A call on a handle, with the context the caller passes. -/
inductive Op where
  | lock (ctx : Context)
  | unlock (ctx : Context)
deriving DecidableEq, Repr

/-- One call. -/
def call {σ : Type} (op : Op) (rrl : RedisReentrantLock σ) (w : World σ) : Outcome σ :=
  match op with
  | Op.lock ctx => Lock rrl ctx w
  | Op.unlock ctx => Unlock rrl ctx w

/-- The outcomes of a sequence of calls on one handle, each call starting from the handle and
world the previous one left. -/
def runOps {σ : Type} : List Op → RedisReentrantLock σ → World σ → List (Outcome σ)
  | [], _, _ => []
  | op :: rest, rrl, w => call op rrl w :: runOps rest (call op rrl w).rrl (call op rrl w).world

/-- The handle after a sequence of calls. -/
def endHandle {σ : Type} : List Op → RedisReentrantLock σ → World σ → RedisReentrantLock σ
  | [], rrl, _ => rrl
  | op :: rest, rrl, w => endHandle rest (call op rrl w).rrl (call op rrl w).world

/-- The world after a sequence of calls. -/
def endWorld {σ : Type} : List Op → RedisReentrantLock σ → World σ → World σ
  | [], _, w => w
  | op :: rest, rrl, w => endWorld rest (call op rrl w).rrl (call op rrl w).world

/-- The store calls among the events of an outcome. -/
def Outcome.storeCalls {σ : Type} (o : Outcome σ) : List Event :=
  o.events.filter Event.isStoreCall

/-- Whether the handle has a counter entry for its key that is greater than 0. -/
def counterPos {σ : Type} (rrl : RedisReentrantLock σ) : Bool :=
  match rrl.locks.lookup rrl.Key with
  | some c => decide (0 < c.val)
  | none => false

/-- A client all of whose `SetNX` calls report `true` and all of whose `Eval` calls report the
integer `1`, without error. -/
def AllSucceed {σ : Type} (cl : RedisClient σ) : Prop :=
  (∀ ctx k v e s, (cl.SetNX ctx k v e s).1 = (true, none)) ∧
  (∀ ctx src ks as s, (cl.Eval ctx src ks as s).1 = (GoAny.int64 1, none))

/-- The property of `N` calls of `Lock` followed by `N` calls of `Unlock` on an unheld handle
with an empty counter map, all store calls succeeding: every call returns `(true, nil)`; the
first `Lock` issues exactly one store call, the `SetNX`; the last `Unlock` issues at most one,
the `Eval`; the calls between them issue no store call; the handle ends without a counter
entry. -/
def NestedPairs (N : Nat) : Prop :=
  ∀ (σ : Type) (rrl : RedisReentrantLock σ) (w : World σ) (l0 : Context) (ls us : List Context)
    (u1 : Context),
    rrl.locks = GoMap.empty → AllSucceed rrl.Client →
    ls.length + 1 = N → us.length + 1 = N →
    (runOps (Op.lock l0 :: ls.map Op.lock ++ (us.map Op.unlock ++ [Op.unlock u1])) rrl w).map
        Outcome.ret = List.replicate (2 * N) (Ret.returned true none) ∧
    (∃ last : List Event,
      (last = [] ∨ last = [Event.Eval u1 script [rrl.Key] [rrl.Value]]) ∧
      (runOps (Op.lock l0 :: ls.map Op.lock ++ (us.map Op.unlock ++ [Op.unlock u1])) rrl w).map
          Outcome.storeCalls =
        [Event.SetNX l0 rrl.Key rrl.Value 0] :: List.replicate (N - 1) [] ++
          (List.replicate (N - 1) [] ++ [last])) ∧
    (endHandle (Op.lock l0 :: ls.map Op.lock ++ (us.map Op.unlock ++ [Op.unlock u1])) rrl
        w).locks.lookup rrl.Key = none

/-! ## A store behind the client -/

/-- The store as a map from keys to string values; expiry is not modelled. -/
abbrev Store := String → Option String

/-- The store with `k` bound to `v`. -/
def Store.put (s : Store) (k v : String) : Store := fun j => if j = k then some v else s j

/-- The store without `k`. -/
def Store.erase (s : Store) (k : String) : Store := fun j => if j = k then none else s j

/-- The Lua source `script` run atomically on the store: `GET KEYS[1]` is compared with
`ARGV[1]`; when equal `DEL KEYS[1]` runs and its count is the reply, otherwise the reply is `0`.
An absent key reads as Lua `false`, which equals no argument. -/
def runScript (s : Store) (keys args : List String) : (GoAny × Option GoError) × Store :=
  match keys with
  | [] => ((GoAny.nil, some (GoError.fromClient 0)), s)
  | k :: _ =>
    match s k, args.head? with
    | some v, some a =>
      if v = a then ((GoAny.int64 1, none), s.erase k) else ((GoAny.int64 0, none), s)
    | _, _ => ((GoAny.int64 0, none), s)

/-- A client in front of a `Store`: `SetNX` sets the key only when it is absent, `Eval` runs
the compare-then-delete script and knows no other script. -/
def storeClient : RedisClient Store where
  Expire := fun _ key _ s => (((s key).isSome, none), s)
  Del := fun _ keys s =>
    keys.foldl (fun acc k =>
      if (acc.2 k).isSome then ((acc.1.1 + 1, none), acc.2.erase k) else acc) ((0, none), s)
  SetNX := fun _ key value _ s =>
    match s key with
    | none => ((true, none), s.put key value)
    | some _ => ((false, none), s)
  Eval := fun _ src keys args s =>
    if src = script then runScript s keys args
    else ((GoAny.nil, some (GoError.fromClient 1)), s)

/-- A client that gives the same two replies whatever it is asked. -/
def fixedClient (setnx : Bool × Option GoError) (ev : GoAny × Option GoError) :
    RedisClient Unit where
  Expire := fun _ _ _ s => ((true, none), s)
  Del := fun _ _ s => ((0, none), s)
  SetNX := fun _ _ _ _ s => (setnx, s)
  Eval := fun _ _ _ _ s => (ev, s)

/-! ## Two handles on one store -/

/-- Two handles and the world they share. -/
structure Pair where
  A : RedisReentrantLock Store
  B : RedisReentrantLock Store
  world : World Store

/-- A call on one of the two handles. -/
inductive PairOp where
  | lockA (ctx : Context)
  | unlockA (ctx : Context)
  | lockB (ctx : Context)
  | unlockB (ctx : Context)
deriving DecidableEq, Repr

/-- One call on one of the two handles; the other handle is untouched, the world is shared. -/
def Pair.step (p : Pair) : PairOp → Pair
  | PairOp.lockA ctx => ⟨(Lock p.A ctx p.world).rrl, p.B, (Lock p.A ctx p.world).world⟩
  | PairOp.unlockA ctx => ⟨(Unlock p.A ctx p.world).rrl, p.B, (Unlock p.A ctx p.world).world⟩
  | PairOp.lockB ctx => ⟨p.A, (Lock p.B ctx p.world).rrl, (Lock p.B ctx p.world).world⟩
  | PairOp.unlockB ctx => ⟨p.A, (Unlock p.B ctx p.world).rrl, (Unlock p.B ctx p.world).world⟩

/-- The state after a sequence of calls. -/
def Pair.run (p : Pair) (ops : List PairOp) : Pair := ops.foldl Pair.step p

/-- Whether the handle has a counter entry for its key. -/
def hasEntry {σ : Type} (rrl : RedisReentrantLock σ) : Bool :=
  (rrl.locks.lookup rrl.Key).isSome

/-- A handle of a client with fixed replies, holding the key `"res"` with counter `n`. -/
def heldHandle (n : GoInt) (ev : GoAny × Option GoError) : RedisReentrantLock Unit :=
  ⟨fixedClient (true, none) ev, "res", "t1", some (fun j => if j = "res" then some n else none),
    some ⟨Context.withCancel (Context.root 0) 0⟩⟩

/-- The largest value of Go `int`. -/
def GoInt.max : GoInt := ⟨9223372036854775807, by decide, by decide⟩

/-- The `int` value `2`. -/
def GoInt.two : GoInt := ⟨2, by decide, by decide⟩

/-- A store in which `"res"` is bound to `v` and nothing else is bound. -/
def resStore (v : String) : Store := fun j => if j = "res" then some v else none

/-- A handle in front of a `Store`, for the key `"res"` with value `v`, with counter `n`. -/
def storeHandle (v : String) (n : GoInt) : RedisReentrantLock Store :=
  ⟨storeClient, "res", v, some (fun j => if j = "res" then some n else none),
    some ⟨Context.withCancel (Context.root 0) 0⟩⟩

/-- A handle in front of a `Store`, for the key `"res"` with value `v`, with an empty counter
map and no cancel function. -/
def unheldHandle (v : String) : RedisReentrantLock Store :=
  ⟨storeClient, "res", v, GoMap.empty, none⟩

/-- The invariant of two handles on one key of one store: both use the store client and have
a counter map, they do not both have a counter entry, and while one has an entry the key is
bound in the store. -/
def PairInv (p : Pair) : Prop :=
  p.A.Key = p.B.Key ∧ p.A.Client = storeClient ∧ p.B.Client = storeClient ∧
  p.A.locks ≠ none ∧ p.B.locks ≠ none ∧
  ¬ (hasEntry p.A = true ∧ hasEntry p.B = true) ∧
  ((hasEntry p.A = true ∨ hasEntry p.B = true) → p.world.store p.A.Key ≠ none)

/-- A handle of a client with fixed, successful replies, for the key `"res"`, with an empty
counter map and no cancel function. -/
def okHandle : RedisReentrantLock Unit :=
  ⟨fixedClient (true, none) (GoAny.int64 1, none), "res", "t1", GoMap.empty, none⟩

/-- The events of a sequence of calls on one handle, in order. -/
def traceOps {σ : Type} : List Op → RedisReentrantLock σ → World σ → List Event
  | [], _, _ => []
  | op :: rest, rrl, w =>
    (call op rrl w).events ++ traceOps rest (call op rrl w).rrl (call op rrl w).world

/-- Whether `c` is `anc` or derived from it: cancelling `anc` cancels `c` as well. -/
def Context.under (anc : Context) : Context → Bool
  | Context.root id => decide (Context.root id = anc)
  | Context.withCancel parent serial =>
    decide (Context.withCancel parent serial = anc) || Context.under anc parent

/-- The renewers that run after one more event, given those that ran before it: the go
statement of `refresh` adds one on its context, a call of a cancel function ends those whose
context it cancels. No context is cancelled in any other way. -/
def trackRenewer (active : List Context) : Event → List Context
  | Event.goRefresh c => active ++ [c]
  | Event.cancelCall f => active.filter (fun c => !(Context.under f.target c))
  | _ => active

/-- The renewers started and not yet cancelled at the end of a trace. -/
def activeRenewers (tr : List Event) : List Context := tr.foldl trackRenewer []

/-- A client all of whose `Eval` calls succeed with an integer reply of at least 1. -/
def EvalSucceeds {σ : Type} (cl : RedisClient σ) : Prop :=
  ∀ ctx src ks as s, ∃ n : Int, 1 ≤ n ∧
    ((cl.Eval ctx src ks as s).1 = (GoAny.int64 n, none) ∨
      (cl.Eval ctx src ks as s).1 = (GoAny.int n, none))

/-- The invariant that links the handle with the renewers running: a held handle has a cancel
function whose context carries the only renewer, an unheld handle has none running. -/
def RenewerInv {σ : Type} (rrl : RedisReentrantLock σ) (active : List Context) : Prop :=
  rrl.locks ≠ none ∧
  (hasEntry rrl = true → ∃ f, rrl.cancelFunc = some f ∧ active = [f.target]) ∧
  (hasEntry rrl = false → active = [])

/-- The invariant of the counter map after at most `n` calls: it is not nil, has no key but
`key`, and an entry for `key` lies between 1 and `n`. -/
def CounterInv {σ : Type} (key : String) (n : Int) (rrl : RedisReentrantLock σ) : Prop :=
  rrl.Key = key ∧ rrl.locks ≠ none ∧
  (∀ k, k ≠ key → rrl.locks.lookup k = none) ∧
  (∀ c, rrl.locks.lookup key = some c → 1 ≤ c.val ∧ c.val ≤ n)

/-- The invariant behind every call of the cancel function: the counter map is not nil, and
a handle with a counter entry has a cancel function. -/
def CancelInv {σ : Type} (rrl : RedisReentrantLock σ) : Prop :=
  rrl.locks ≠ none ∧ (hasEntry rrl = true → rrl.cancelFunc ≠ none)

/-- A handle of a client whose `SetNX` always reports true and whose `Eval` always fails, for
the key `"res"`, with an empty counter map and no cancel function. -/
def failHandle : RedisReentrantLock Unit :=
  ⟨fixedClient (true, none) (GoAny.nil, some (GoError.fromClient 7)), "res", "t1",
    GoMap.empty, none⟩

/-! ## The renewer started by `refresh` -/

/-- What the `select` of the loop receives: `ctx.Done()` or a tick of the ticker. -/
inductive Wake where
  | done
  | tick
deriving DecidableEq, Repr

/-- The period `defaultExpiration / 6` given to `time.NewTicker`, in nanoseconds; the
division of Go integers truncates. -/
def tickerPeriod : Int := Int.tdiv defaultExpiration 6

/-- One round of the loop in `refresh`: whether the loop goes on, the state behind the client
after it, and the events of the round. The reply of `Expire` is dropped. -/
def refreshRound {σ : Type} (rrl : RedisReentrantLock σ) (ctx : Context) (s : σ) :
    Wake → Bool × σ × List Event
  | Wake.done => (false, s, [])
  | Wake.tick =>
    (true, (rrl.Client.Expire ctx rrl.Key defaultExpiration s).2,
      [Event.Expire ctx rrl.Key defaultExpiration])

/-- The loop in `refresh` over a sequence of wake-ups: whether it is still running at the
end, the state behind the client, and the events. It ends at the first `done`. -/
def refreshLoop {σ : Type} (rrl : RedisReentrantLock σ) (ctx : Context) :
    List Wake → σ → Bool × σ × List Event
  | [], s => (true, s, [])
  | wk :: rest, s =>
    if (refreshRound rrl ctx s wk).1 = true then
      ((refreshLoop rrl ctx rest (refreshRound rrl ctx s wk).2.1).1,
        (refreshLoop rrl ctx rest (refreshRound rrl ctx s wk).2.1).2.1,
        (refreshRound rrl ctx s wk).2.2 ++
          (refreshLoop rrl ctx rest (refreshRound rrl ctx s wk).2.1).2.2)
    else (false, (refreshRound rrl ctx s wk).2.1, (refreshRound rrl ctx s wk).2.2)

/-- A `time.Ticker`, with the period of its ticks in nanoseconds. -/
structure Ticker where
  period : Int
deriving DecidableEq, Repr

/-- The call `time.NewTicker(d)`; `none` is its panic on a duration that is not positive. -/
def NewTicker (d : Int) : Option Ticker :=
  if 0 < d then some ⟨d⟩ else none

/-- The nominal time of the `k`-th tick of a ticker, in nanoseconds since it was made. -/
def Ticker.tickTime (t : Ticker) (k : Nat) : Int := k * t.period

/-- The state behind the client after `n` calls of `Expire` by the renewer, one after the
other. -/
def expireState {σ : Type} (rrl : RedisReentrantLock σ) (ctx : Context) : Nat → σ → σ
  | 0, s => s
  | n + 1, s => expireState rrl ctx n (rrl.Client.Expire ctx rrl.Key defaultExpiration s).2

/-- The body of the goroutine in `refresh`: it makes the ticker with the period
`defaultExpiration / 6` and runs the loop over the wake-ups of its `select`; `none` is the
panic of `time.NewTicker`. The result is the ticker and what the loop did. -/
def refreshBody {σ : Type} (rrl : RedisReentrantLock σ) (ctx : Context) (wakes : List Wake)
    (s : σ) : Option (Ticker × (Bool × σ × List Event)) :=
  match NewTicker tickerPeriod with
  | none => none
  | some ticker => some (ticker, refreshLoop rrl ctx wakes s)

/-! ## Facts about the Go values -/

theorem wrapInt_lo (x : Int) : -9223372036854775808 ≤ wrapInt x := by
  unfold wrapInt
  omega

theorem wrapInt_hi (x : Int) : wrapInt x ≤ 9223372036854775807 := by
  unfold wrapInt
  omega

theorem wrapInt_of_range (x : Int) (h1 : -9223372036854775808 ≤ x)
    (h2 : x ≤ 9223372036854775807) : wrapInt x = x := by
  unfold wrapInt
  omega

theorem GoInt.ext_val {a b : GoInt} (h : a.val = b.val) : a = b := by
  cases a; cases b; cases h; rfl

theorem GoMap.lookup_some {m : GoMap} {k : String} {c : GoInt} (h : m.lookup k = some c) :
    ∃ f, m = some f ∧ f k = some c := by
  cases m with
  | none => simp [GoMap.lookup] at h
  | some f => exact ⟨f, rfl, by simpa [GoMap.lookup] using h⟩

theorem GoInt.add_one_val (c : GoInt) (h : c.val < 9223372036854775807) :
    (c.add GoInt.one).val = c.val + 1 := by
  have := c.lo
  simp only [GoInt.add, GoInt.ofInt, GoInt.one]
  exact wrapInt_of_range _ (by omega) (by omega)

theorem GoInt.sub_one_val (c : GoInt) (h : -9223372036854775808 < c.val) :
    (c.sub GoInt.one).val = c.val - 1 := by
  have := c.hi
  simp only [GoInt.sub, GoInt.ofInt, GoInt.one]
  exact wrapInt_of_range _ (by omega) (by omega)

/-! ## Single calls -/

/-- Lock on a handle that has a counter entry: the reentrant branch. -/
theorem Lock_of_entry {σ : Type} (rrl : RedisReentrantLock σ) (ctx : Context) (w : World σ)
    (f : String → Option GoInt) (c : GoInt) (hm : rrl.locks = some f)
    (hc : f rrl.Key = some c) :
    Lock rrl ctx w =
      ⟨Ret.returned true none,
        ⟨rrl.Client, rrl.Key, rrl.Value,
          some (fun j => if j = rrl.Key then some (c.add GoInt.one) else f j), rrl.cancelFunc⟩,
        w, []⟩ := by
  simp [Lock, hm, GoMap.lookup, hc, GoMap.assign]

/-- C5 (as amended): on a handle whose counter for Key is n with n >= 1, Lock returns
(true, nil), issues no store call, starts no renewer, leaves the cancel function, the other
fields and the world unchanged, and stores the wrapped sum of n and 1 in the counter, which
is n + 1 whenever n is below the largest int. -/
theorem Lock_reentrant {σ : Type} (rrl : RedisReentrantLock σ) (ctx : Context) (w : World σ)
    (c : GoInt) (hc : rrl.locks.lookup rrl.Key = some c) (_ : 1 ≤ c.val) :
    (Lock rrl ctx w).ret = Ret.returned true none ∧
    (Lock rrl ctx w).events = [] ∧
    (Lock rrl ctx w).world = w ∧
    (Lock rrl ctx w).rrl.cancelFunc = rrl.cancelFunc ∧
    (Lock rrl ctx w).rrl.Key = rrl.Key ∧
    (Lock rrl ctx w).rrl.Value = rrl.Value ∧
    (Lock rrl ctx w).rrl.locks.lookup rrl.Key = some (GoInt.ofInt (c.val + 1)) ∧
    (c.val < 9223372036854775807 →
      ((Lock rrl ctx w).rrl.locks.lookup rrl.Key).map GoInt.val = some (c.val + 1)) := by
  obtain ⟨f, hm, hf⟩ := GoMap.lookup_some hc
  rw [Lock_of_entry rrl ctx w f c hm hf]
  refine ⟨rfl, rfl, rfl, rfl, rfl, rfl, ?_, ?_⟩
  · simp [GoMap.lookup, GoInt.add, GoInt.one]
  · intro hlt
    simp [GoMap.lookup, GoInt.add_one_val c hlt]

theorem Lock_reentrant_witness :
    (heldHandle GoInt.two (GoAny.int64 1, none)).locks.lookup
        (heldHandle GoInt.two (GoAny.int64 1, none)).Key = some GoInt.two ∧
    ((Lock (heldHandle GoInt.two (GoAny.int64 1, none)) (Context.root 0)
        ⟨(), 1⟩).rrl.locks.lookup "res").map GoInt.val = some 3 :=
  ⟨rfl, (Lock_reentrant (heldHandle GoInt.two (GoAny.int64 1, none)) (Context.root 0) ⟨(), 1⟩
    GoInt.two rfl (by decide)).2.2.2.2.2.2.2 (by decide)⟩

/-- C5 (as stated) fails at the largest int: the handle holds counter 9223372036854775807,
and after Lock the counter is -9223372036854775808, not 9223372036854775808. -/
theorem Lock_reentrant_wraps_at_max :
    (heldHandle GoInt.max (GoAny.int64 1, none)).locks.lookup "res" = some GoInt.max ∧
    GoInt.max.val = 9223372036854775807 ∧
    ((Lock (heldHandle GoInt.max (GoAny.int64 1, none)) (Context.root 0)
        ⟨(), 1⟩).rrl.locks.lookup "res").map GoInt.val = some (-9223372036854775808) ∧
    ((Lock (heldHandle GoInt.max (GoAny.int64 1, none)) (Context.root 0)
        ⟨(), 1⟩).rrl.locks.lookup "res").map GoInt.val ≠ some (9223372036854775807 + 1) := by
  refine ⟨rfl, rfl, ?_, ?_⟩
  · rw [Lock_of_entry _ _ _ _ GoInt.max rfl rfl]
    simp [GoMap.lookup, heldHandle, GoInt.add, GoInt.ofInt, GoInt.one, GoInt.max, wrapInt]
  · rw [Lock_of_entry _ _ _ _ GoInt.max rfl rfl]
    simp [GoMap.lookup, heldHandle, GoInt.add, GoInt.ofInt, GoInt.one, GoInt.max, wrapInt]

/-- Unlock on a handle whose counter entry is 1: the final release, up to the reply of Eval. -/
theorem Unlock_of_one {σ : Type} (rrl : RedisReentrantLock σ) (ctx : Context) (w : World σ)
    (c : GoInt) (hc : rrl.locks.lookup rrl.Key = some c) (h1 : c.val = 1) :
    Unlock rrl ctx w =
      match (rrl.Client.Eval ctx script [rrl.Key] [rrl.Value] w.store).1.2 with
      | some err =>
        ⟨Ret.returned false (some err),
          ⟨rrl.Client, rrl.Key, rrl.Value, rrl.locks.delete rrl.Key, rrl.cancelFunc⟩,
          ⟨(rrl.Client.Eval ctx script [rrl.Key] [rrl.Value] w.store).2, w.nextCtx⟩,
          [Event.Eval ctx script [rrl.Key] [rrl.Value]]⟩
      | none =>
        if (rrl.Client.Eval ctx script [rrl.Key] [rrl.Value] w.store).1.1.eqZero = true then
          ⟨Ret.returned false (some (GoError.errorsNew "failed to release lock for key")),
            ⟨rrl.Client, rrl.Key, rrl.Value, rrl.locks.delete rrl.Key, rrl.cancelFunc⟩,
            ⟨(rrl.Client.Eval ctx script [rrl.Key] [rrl.Value] w.store).2, w.nextCtx⟩,
            [Event.Eval ctx script [rrl.Key] [rrl.Value]]⟩
        else
          match rrl.cancelFunc with
          | some f =>
            ⟨Ret.returned true none,
              ⟨rrl.Client, rrl.Key, rrl.Value, rrl.locks.delete rrl.Key, rrl.cancelFunc⟩,
              ⟨(rrl.Client.Eval ctx script [rrl.Key] [rrl.Value] w.store).2, w.nextCtx⟩,
              [Event.Eval ctx script [rrl.Key] [rrl.Value]] ++ [Event.cancelCall f]⟩
          | none =>
            ⟨Ret.panicked "runtime error: invalid memory address or nil pointer dereference",
              ⟨rrl.Client, rrl.Key, rrl.Value, rrl.locks.delete rrl.Key, rrl.cancelFunc⟩,
              ⟨(rrl.Client.Eval ctx script [rrl.Key] [rrl.Value] w.store).2, w.nextCtx⟩,
              [Event.Eval ctx script [rrl.Key] [rrl.Value]]⟩ := by
  simp only [Unlock, hc, h1, if_true]

theorem GoMap.lookup_delete (m : GoMap) (k : String) : (m.delete k).lookup k = none := by
  cases m <;> simp [GoMap.delete, GoMap.lookup]

/-- C1 (what the code does): on a handle whose counter for Key is 1 and whose cancel function
is set, when Eval succeeds with the reply int64 0, the comparison of the reply with the
constant 0 is false, so Unlock invokes the cancel function and returns (true, nil). -/
theorem Unlock_final_int64_zero {σ : Type} (rrl : RedisReentrantLock σ) (ctx : Context)
    (w : World σ) (c : GoInt) (f : CancelFunc)
    (hc : rrl.locks.lookup rrl.Key = some c) (h1 : c.val = 1) (hf : rrl.cancelFunc = some f)
    (hr : (rrl.Client.Eval ctx script [rrl.Key] [rrl.Value] w.store).1 = (GoAny.int64 0, none)) :
    (Unlock rrl ctx w).ret = Ret.returned true none ∧
    (Unlock rrl ctx w).events =
      [Event.Eval ctx script [rrl.Key] [rrl.Value], Event.cancelCall f] := by
  rw [Unlock_of_one rrl ctx w c hc h1]
  simp [hr, GoAny.eqZero, hf]

theorem Unlock_final_int64_zero_witness :
    (storeHandle "t1" GoInt.one).locks.lookup "res" = some GoInt.one ∧
    (resStore "t2") "res" = some "t2" ∧
    (Unlock (storeHandle "t1" GoInt.one) (Context.root 0) ⟨resStore "t2", 1⟩).ret =
      Ret.returned true none ∧
    (Unlock (storeHandle "t1" GoInt.one) (Context.root 0) ⟨resStore "t2", 1⟩).events =
      [Event.Eval (Context.root 0) script ["res"] ["t1"],
        Event.cancelCall ⟨Context.withCancel (Context.root 0) 0⟩] :=
  ⟨rfl, rfl,
    Unlock_final_int64_zero (storeHandle "t1" GoInt.one) (Context.root 0) ⟨resStore "t2", 1⟩
      GoInt.one ⟨Context.withCancel (Context.root 0) 0⟩ rfl rfl rfl
      (by simp [storeHandle, storeClient, runScript, resStore])⟩

/-- C2 (what the code does): on the handle that NewRedisReentrantLock returns, the counter map
is nil; when SetNX succeeds and reports true, Lock sets the cancel function, starts the
renewer, and then panics on the assignment into the nil map, leaving no counter entry. -/
theorem Lock_new_handle_panics {σ : Type} (client : RedisClient σ) (key value : String)
    (ctx : Context) (w : World σ)
    (hr : (client.SetNX ctx key value 0 w.store).1 = (true, none)) :
    (Lock (NewRedisReentrantLock client key value) ctx w).ret =
      Ret.panicked "assignment to entry in nil map" ∧
    (Lock (NewRedisReentrantLock client key value) ctx w).rrl.locks.lookup key = none ∧
    (Lock (NewRedisReentrantLock client key value) ctx w).rrl.cancelFunc =
      some ⟨Context.withCancel ctx w.nextCtx⟩ ∧
    (Lock (NewRedisReentrantLock client key value) ctx w).events =
      [Event.SetNX ctx key value 0, Event.goRefresh (Context.withCancel ctx w.nextCtx)] := by
  simp [Lock, NewRedisReentrantLock, GoMap.lookup, GoMap.assign, hr, refresh]

theorem Lock_new_handle_panics_witness :
    (Lock (NewRedisReentrantLock storeClient "res" "t1") (Context.root 0)
        ⟨fun _ => none, 0⟩).ret = Ret.panicked "assignment to entry in nil map" ∧
    (Lock (NewRedisReentrantLock storeClient "res" "t1") (Context.root 0)
        ⟨fun _ => none, 0⟩).rrl.locks.lookup "res" = none :=
  ⟨(Lock_new_handle_panics storeClient "res" "t1" (Context.root 0) ⟨fun _ => none, 0⟩ rfl).1,
    (Lock_new_handle_panics storeClient "res" "t1" (Context.root 0) ⟨fun _ => none, 0⟩ rfl).2.1⟩

/-- The final release leaves the same handle and world on all its paths. -/
theorem Unlock_of_one_state {σ : Type} (rrl : RedisReentrantLock σ) (ctx : Context)
    (w : World σ) (c : GoInt) (hc : rrl.locks.lookup rrl.Key = some c) (h1 : c.val = 1) :
    (Unlock rrl ctx w).rrl =
      ⟨rrl.Client, rrl.Key, rrl.Value, rrl.locks.delete rrl.Key, rrl.cancelFunc⟩ ∧
    (Unlock rrl ctx w).world =
      ⟨(rrl.Client.Eval ctx script [rrl.Key] [rrl.Value] w.store).2, w.nextCtx⟩ ∧
    (Unlock rrl ctx w).storeCalls = [Event.Eval ctx script [rrl.Key] [rrl.Value]] := by
  rw [Unlock_of_one rrl ctx w c hc h1]
  cases (rrl.Client.Eval ctx script [rrl.Key] [rrl.Value] w.store).1.2 with
  | some err => exact ⟨rfl, rfl, rfl⟩
  | none =>
    by_cases hz : (rrl.Client.Eval ctx script [rrl.Key] [rrl.Value] w.store).1.1.eqZero = true
    · rw [if_pos hz]
      exact ⟨rfl, rfl, rfl⟩
    · rw [if_neg hz]
      cases rrl.cancelFunc with
      | none => exact ⟨rfl, rfl, rfl⟩
      | some f => exact ⟨rfl, rfl, rfl⟩

/-- C3: with the store behind the client and the script run by its text, the final Unlock
(counter for Key exactly 1) issues one store call, Eval of the script with keys [Key] and
argument Value; the store is unchanged when Key is absent or bound to another value, Key is
erased when it is bound to Value, and no other key is ever touched. -/
theorem Unlock_final_store (rrl : RedisReentrantLock Store) (ctx : Context) (w : World Store)
    (c : GoInt) (hcl : rrl.Client = storeClient)
    (hc : rrl.locks.lookup rrl.Key = some c) (h1 : c.val = 1) :
    (Unlock rrl ctx w).storeCalls = [Event.Eval ctx script [rrl.Key] [rrl.Value]] ∧
    (w.store rrl.Key ≠ some rrl.Value → (Unlock rrl ctx w).world.store = w.store) ∧
    (w.store rrl.Key = some rrl.Value →
      (Unlock rrl ctx w).world.store = w.store.erase rrl.Key) ∧
    (∀ k, k ≠ rrl.Key → (Unlock rrl ctx w).world.store k = w.store k) := by
  obtain ⟨-, hw, hs⟩ := Unlock_of_one_state rrl ctx w c hc h1
  refine ⟨hs, ?_, ?_, ?_⟩
  · intro hne
    rw [hw, hcl]
    cases hk : w.store rrl.Key with
    | none => simp [storeClient, runScript, hk]
    | some v =>
      have hv : ¬ v = rrl.Value := fun h => hne (by rw [hk, h])
      simp [storeClient, runScript, hk, hv]
  · intro heq
    rw [hw, hcl]
    simp [storeClient, runScript, heq]
  · intro k hk
    rw [hw, hcl]
    cases hs : w.store rrl.Key with
    | none => simp [storeClient, runScript, hs]
    | some v =>
      by_cases hv : v = rrl.Value
      · simp [storeClient, runScript, hs, hv, Store.erase, hk]
      · simp [storeClient, runScript, hs, hv]

theorem Unlock_final_store_witness :
    (resStore "t2") "res" ≠ some "t1" ∧
    (Unlock (storeHandle "t1" GoInt.one) (Context.root 0) ⟨resStore "t2", 1⟩).world.store =
      resStore "t2" :=
  ⟨by decide,
    (Unlock_final_store (storeHandle "t1" GoInt.one) (Context.root 0) ⟨resStore "t2", 1⟩
      GoInt.one rfl rfl rfl).2.1 (by decide)⟩

/-- C6: on a handle without a counter entry for Key, when SetNX succeeds without error and
reports false, Lock returns (false, err) with err non-nil, the handle is unchanged (no counter
entry, same cancel function), and the only event is that one SetNX: no renewer is started. -/
theorem Lock_contention {σ : Type} (rrl : RedisReentrantLock σ) (ctx : Context) (w : World σ)
    (hc : rrl.locks.lookup rrl.Key = none)
    (hr : (rrl.Client.SetNX ctx rrl.Key rrl.Value 0 w.store).1 = (false, none)) :
    (∃ err, (Lock rrl ctx w).ret = Ret.returned false (some err)) ∧
    (Lock rrl ctx w).rrl = rrl ∧
    (Lock rrl ctx w).rrl.locks.lookup rrl.Key = none ∧
    (Lock rrl ctx w).events = [Event.SetNX ctx rrl.Key rrl.Value 0] := by
  simp [Lock, hc, hr]

theorem Lock_contention_witness :
    (∃ err, (Lock (unheldHandle "t2") (Context.root 0) ⟨resStore "t1", 0⟩).ret =
      Ret.returned false (some err)) ∧
    (Lock (unheldHandle "t2") (Context.root 0) ⟨resStore "t1", 0⟩).rrl = unheldHandle "t2" :=
  ⟨(Lock_contention (unheldHandle "t2") (Context.root 0) ⟨resStore "t1", 0⟩ rfl rfl).1,
    (Lock_contention (unheldHandle "t2") (Context.root 0) ⟨resStore "t1", 0⟩ rfl rfl).2.1⟩

/-- C8: on a handle whose counter for Key is 1 and whose cancel function is set, when Eval
succeeds with an integer reply n >= 1 (of dynamic type int64 or int), Unlock returns
(true, nil), removes the counter entry, and produces exactly two events: the Eval of the
script with keys [Key] and argument Value, its only store call, then one call of the cancel
function. -/
theorem Unlock_final_success {σ : Type} (rrl : RedisReentrantLock σ) (ctx : Context)
    (w : World σ) (c : GoInt) (f : CancelFunc) (n : Int)
    (hc : rrl.locks.lookup rrl.Key = some c) (h1 : c.val = 1) (hf : rrl.cancelFunc = some f)
    (hr : (rrl.Client.Eval ctx script [rrl.Key] [rrl.Value] w.store).1 = (GoAny.int64 n, none) ∨
      (rrl.Client.Eval ctx script [rrl.Key] [rrl.Value] w.store).1 = (GoAny.int n, none))
    (hn : 1 ≤ n) :
    (Unlock rrl ctx w).ret = Ret.returned true none ∧
    (Unlock rrl ctx w).rrl.locks.lookup rrl.Key = none ∧
    (Unlock rrl ctx w).events =
      [Event.Eval ctx script [rrl.Key] [rrl.Value], Event.cancelCall f] ∧
    (Unlock rrl ctx w).storeCalls = [Event.Eval ctx script [rrl.Key] [rrl.Value]] ∧
    (Unlock rrl ctx w).events.count (Event.cancelCall f) = 1 := by
  obtain ⟨hrrl, -, hs⟩ := Unlock_of_one_state rrl ctx w c hc h1
  have hn0 : ¬ n = 0 := by omega
  have hev : (Unlock rrl ctx w).ret = Ret.returned true none ∧ (Unlock rrl ctx w).events =
      [Event.Eval ctx script [rrl.Key] [rrl.Value], Event.cancelCall f] := by
    rw [Unlock_of_one rrl ctx w c hc h1]
    rcases hr with hr | hr <;> simp [hr, GoAny.eqZero, hf, hn0]
  refine ⟨hev.1, ?_, hev.2, hs, ?_⟩
  · rw [hrrl]
    exact GoMap.lookup_delete _ _
  · rw [hev.2]
    simp

theorem Unlock_final_success_witness :
    (Unlock (storeHandle "t1" GoInt.one) (Context.root 0) ⟨resStore "t1", 1⟩).ret =
      Ret.returned true none ∧
    (Unlock (storeHandle "t1" GoInt.one) (Context.root 0)
      ⟨resStore "t1", 1⟩).rrl.locks.lookup "res" = none :=
  ⟨(Unlock_final_success (storeHandle "t1" GoInt.one) (Context.root 0) ⟨resStore "t1", 1⟩
      GoInt.one ⟨Context.withCancel (Context.root 0) 0⟩ 1 rfl rfl rfl
      (Or.inl (by simp [storeHandle, storeClient, runScript, resStore])) (by decide)).1,
    (Unlock_final_success (storeHandle "t1" GoInt.one) (Context.root 0) ⟨resStore "t1", 1⟩
      GoInt.one ⟨Context.withCancel (Context.root 0) 0⟩ 1 rfl rfl rfl
      (Or.inl (by simp [storeHandle, storeClient, runScript, resStore])) (by decide)).2.1⟩

/-- C9: on a handle whose counter for Key is 1, when Eval returns an error e, Unlock returns
(false, e), the counter entry has been removed, the cancel function is kept and has not been
invoked: the only event is the Eval. -/
theorem Unlock_final_error {σ : Type} (rrl : RedisReentrantLock σ) (ctx : Context)
    (w : World σ) (c : GoInt) (e : GoError)
    (hc : rrl.locks.lookup rrl.Key = some c) (h1 : c.val = 1)
    (hr : (rrl.Client.Eval ctx script [rrl.Key] [rrl.Value] w.store).1.2 = some e) :
    (Unlock rrl ctx w).ret = Ret.returned false (some e) ∧
    (Unlock rrl ctx w).rrl.locks.lookup rrl.Key = none ∧
    (Unlock rrl ctx w).rrl.cancelFunc = rrl.cancelFunc ∧
    (Unlock rrl ctx w).events = [Event.Eval ctx script [rrl.Key] [rrl.Value]] := by
  obtain ⟨hrrl, -, -⟩ := Unlock_of_one_state rrl ctx w c hc h1
  refine ⟨?_, ?_, ?_, ?_⟩
  · rw [Unlock_of_one rrl ctx w c hc h1]
    simp [hr]
  · rw [hrrl]
    exact GoMap.lookup_delete _ _
  · rw [hrrl]
  · rw [Unlock_of_one rrl ctx w c hc h1]
    simp [hr]

theorem Unlock_final_error_witness :
    (Unlock (heldHandle GoInt.one (GoAny.nil, some (GoError.fromClient 7))) (Context.root 0)
      ⟨(), 1⟩).ret = Ret.returned false (some (GoError.fromClient 7)) ∧
    (Unlock (heldHandle GoInt.one (GoAny.nil, some (GoError.fromClient 7))) (Context.root 0)
      ⟨(), 1⟩).rrl.locks.lookup "res" = none :=
  ⟨(Unlock_final_error (heldHandle GoInt.one (GoAny.nil, some (GoError.fromClient 7)))
      (Context.root 0) ⟨(), 1⟩ GoInt.one (GoError.fromClient 7) rfl rfl rfl).1,
    (Unlock_final_error (heldHandle GoInt.one (GoAny.nil, some (GoError.fromClient 7)))
      (Context.root 0) ⟨(), 1⟩ GoInt.one (GoError.fromClient 7) rfl rfl rfl).2.1⟩

/-- Unlock on a handle whose counter entry is not 1: the nested branch. -/
theorem Unlock_of_entry {σ : Type} (rrl : RedisReentrantLock σ) (ctx : Context) (w : World σ)
    (f : String → Option GoInt) (c : GoInt) (hm : rrl.locks = some f)
    (hc : f rrl.Key = some c) (h1 : c.val ≠ 1) :
    Unlock rrl ctx w =
      ⟨Ret.returned true none,
        ⟨rrl.Client, rrl.Key, rrl.Value,
          some (fun j => if j = rrl.Key then some (c.sub GoInt.one) else f j), rrl.cancelFunc⟩,
        w, []⟩ := by
  simp [Unlock, hm, GoMap.lookup, hc, GoMap.assign, h1]

/-- C10: on a handle whose counter for Key is n with n > 1, Unlock returns (true, nil), sets
the counter to n - 1, produces no event (no store call, no call of the cancel function) and
leaves the cancel function and the world unchanged. -/
theorem Unlock_nested {σ : Type} (rrl : RedisReentrantLock σ) (ctx : Context) (w : World σ)
    (c : GoInt) (hc : rrl.locks.lookup rrl.Key = some c) (hn : 1 < c.val) :
    (Unlock rrl ctx w).ret = Ret.returned true none ∧
    ((Unlock rrl ctx w).rrl.locks.lookup rrl.Key).map GoInt.val = some (c.val - 1) ∧
    (Unlock rrl ctx w).events = [] ∧
    (Unlock rrl ctx w).rrl.cancelFunc = rrl.cancelFunc ∧
    (Unlock rrl ctx w).world = w := by
  obtain ⟨f, hm, hf⟩ := GoMap.lookup_some hc
  have hlo := c.lo
  rw [Unlock_of_entry rrl ctx w f c hm hf (by omega)]
  refine ⟨rfl, ?_, rfl, rfl, rfl⟩
  simp [GoMap.lookup, GoInt.sub_one_val c (by omega)]

theorem Unlock_nested_witness :
    ((Unlock (heldHandle GoInt.two (GoAny.int64 1, none)) (Context.root 0)
      ⟨(), 1⟩).rrl.locks.lookup "res").map GoInt.val = some 1 ∧
    (Unlock (heldHandle GoInt.two (GoAny.int64 1, none)) (Context.root 0) ⟨(), 1⟩).events = [] :=
  ⟨(Unlock_nested (heldHandle GoInt.two (GoAny.int64 1, none)) (Context.root 0) ⟨(), 1⟩
      GoInt.two rfl (by decide)).2.1,
    (Unlock_nested (heldHandle GoInt.two (GoAny.int64 1, none)) (Context.root 0) ⟨(), 1⟩
      GoInt.two rfl (by decide)).2.2.1⟩

/-! ## Two handles on one store: mutual exclusion -/

theorem counterPos_hasEntry {σ : Type} (rrl : RedisReentrantLock σ)
    (h : counterPos rrl = true) : hasEntry rrl = true := by
  unfold counterPos at h
  unfold hasEntry
  cases hl : rrl.locks.lookup rrl.Key with
  | none => simp [hl] at h
  | some c => rfl

/-- Lock through the store client: the fields it keeps, and its three cases. -/
theorem Lock_store_step (rrl : RedisReentrantLock Store) (ctx : Context) (w : World Store)
    (hcl : rrl.Client = storeClient) (hm : rrl.locks ≠ none) :
    (Lock rrl ctx w).rrl.Key = rrl.Key ∧ (Lock rrl ctx w).rrl.Client = rrl.Client ∧
    (Lock rrl ctx w).rrl.locks ≠ none ∧
    (hasEntry rrl = true →
      hasEntry (Lock rrl ctx w).rrl = true ∧ (Lock rrl ctx w).world.store = w.store) ∧
    (hasEntry rrl = false → w.store rrl.Key ≠ none →
      hasEntry (Lock rrl ctx w).rrl = false ∧ (Lock rrl ctx w).world.store = w.store ∧
      ∃ err, (Lock rrl ctx w).ret = Ret.returned false (some err)) ∧
    (hasEntry rrl = false → w.store rrl.Key = none →
      hasEntry (Lock rrl ctx w).rrl = true ∧ (Lock rrl ctx w).world.store rrl.Key ≠ none) := by
  obtain ⟨cl, key, value, locks, cf⟩ := rrl
  simp only at hcl hm
  subst hcl
  cases locks with
  | none => exact absurd rfl hm
  | some f =>
    cases hf : f key with
    | some c =>
      simp [Lock, GoMap.lookup, GoMap.assign, hf, hasEntry]
    | none =>
      cases hs : w.store key with
      | none =>
        simp [Lock, GoMap.lookup, GoMap.assign, hf, hasEntry, storeClient, hs, Store.put]
      | some v =>
        simp [Lock, GoMap.lookup, GoMap.assign, hf, hasEntry, storeClient, hs]

/-- Unlock through the store client: the fields it keeps, and its cases. -/
theorem Unlock_store_step (rrl : RedisReentrantLock Store) (ctx : Context) (w : World Store)
    (hm : rrl.locks ≠ none) :
    (Unlock rrl ctx w).rrl.Key = rrl.Key ∧ (Unlock rrl ctx w).rrl.Client = rrl.Client ∧
    (Unlock rrl ctx w).rrl.locks ≠ none ∧
    (hasEntry rrl = false →
      hasEntry (Unlock rrl ctx w).rrl = false ∧ (Unlock rrl ctx w).world.store = w.store) ∧
    (hasEntry (Unlock rrl ctx w).rrl = true →
      hasEntry rrl = true ∧ (Unlock rrl ctx w).world.store = w.store) := by
  obtain ⟨cl, key, value, locks, cf⟩ := rrl
  simp only at hm
  cases locks with
  | none => exact absurd rfl hm
  | some f =>
    cases hf : f key with
    | none => simp [Unlock, GoMap.lookup, hf, hasEntry]
    | some c =>
      by_cases h1 : c.val = 1
      · have hc : (RedisReentrantLock.mk cl key value (some f) cf).locks.lookup
            (RedisReentrantLock.mk cl key value (some f) cf).Key = some c := by
          simpa [GoMap.lookup] using hf
        obtain ⟨hr, -, -⟩ := Unlock_of_one_state _ ctx w c hc h1
        rw [hr]
        simp [hasEntry, GoMap.delete, GoMap.lookup, hf]
      · rw [Unlock_of_entry _ ctx w f c rfl hf h1]
        simp [hasEntry, GoMap.lookup, hf]

/-- Every call on either handle preserves the invariant. -/
theorem PairInv_step (p : Pair) (op : PairOp) (h : PairInv p) : PairInv (p.step op) := by
  obtain ⟨hk, hA, hB, hmA, hmB, hex, hst⟩ := h
  cases op with
  | lockA ctx =>
    obtain ⟨l1, l2, l3, l4, l5, l6⟩ := Lock_store_step p.A ctx p.world hA hmA
    refine ⟨by simp only [Pair.step]; rw [l1]; exact hk,
      by simp only [Pair.step]; rw [l2]; exact hA, hB, l3, hmB, ?_, ?_⟩ <;>
      simp only [Pair.step, l1]
    · cases hE : hasEntry p.A with
      | true =>
        intro hboth
        exact hex ⟨hE, hboth.2⟩
      | false =>
        intro hboth
        have hS : p.world.store p.A.Key ≠ none := hst (Or.inr hboth.2)
        rw [(l5 hE hS).1] at hboth
        exact Bool.false_ne_true hboth.1
    · cases hE : hasEntry p.A with
      | true =>
        intro _
        rw [(l4 hE).2]
        exact hst (Or.inl hE)
      | false =>
        intro hor
        by_cases hS : p.world.store p.A.Key = none
        · exact (l6 hE hS).2
        · rw [(l5 hE hS).2.1]
          exact hS
  | unlockA ctx =>
    obtain ⟨u1, u2, u3, u4, u5⟩ := Unlock_store_step p.A ctx p.world hmA
    refine ⟨by simp only [Pair.step]; rw [u1]; exact hk,
      by simp only [Pair.step]; rw [u2]; exact hA, hB, u3, hmB, ?_, ?_⟩ <;>
      simp only [Pair.step, u1]
    · intro hboth
      exact hex ⟨(u5 hboth.1).1, hboth.2⟩
    · intro hor
      cases hE : hasEntry p.A with
      | false =>
        rw [(u4 hE).2]
        rcases hor with h1 | h2
        · rw [(u4 hE).1] at h1
          exact absurd h1 Bool.false_ne_true
        · exact hst (Or.inr h2)
      | true =>
        rcases hor with h1 | h2
        · rw [(u5 h1).2]
          exact hst (Or.inl hE)
        · exact absurd ⟨hE, h2⟩ hex
  | lockB ctx =>
    obtain ⟨l1, l2, l3, l4, l5, l6⟩ := Lock_store_step p.B ctx p.world hB hmB
    refine ⟨by simp only [Pair.step]; rw [l1]; exact hk, hA,
      by simp only [Pair.step]; rw [l2]; exact hB, hmA, l3, ?_, ?_⟩ <;>
      simp only [Pair.step]
    · cases hE : hasEntry p.B with
      | true =>
        intro hboth
        exact hex ⟨hboth.1, hE⟩
      | false =>
        intro hboth
        have hS : p.world.store p.B.Key ≠ none := by
          rw [← hk]
          exact hst (Or.inl hboth.1)
        rw [(l5 hE hS).1] at hboth
        exact Bool.false_ne_true hboth.2
    · rw [hk]
      rw [hk] at hst
      cases hE : hasEntry p.B with
      | true =>
        intro _
        rw [(l4 hE).2]
        exact hst (Or.inr hE)
      | false =>
        intro hor
        by_cases hS : p.world.store p.B.Key = none
        · exact (l6 hE hS).2
        · rw [(l5 hE hS).2.1]
          exact hS
  | unlockB ctx =>
    obtain ⟨u1, u2, u3, u4, u5⟩ := Unlock_store_step p.B ctx p.world hmB
    refine ⟨by simp only [Pair.step]; rw [u1]; exact hk, hA,
      by simp only [Pair.step]; rw [u2]; exact hB, hmA, u3, ?_, ?_⟩ <;>
      simp only [Pair.step]
    · intro hboth
      exact hex ⟨hboth.1, (u5 hboth.2).1⟩
    · intro hor
      cases hE : hasEntry p.B with
      | false =>
        rw [(u4 hE).2]
        rcases hor with h1 | h2
        · exact hst (Or.inl h1)
        · rw [(u4 hE).1] at h2
          exact absurd h2 Bool.false_ne_true
      | true =>
        rcases hor with h1 | h2
        · exact absurd ⟨h1, hE⟩ hex
        · rw [(u5 h2).2]
          exact hst (Or.inr hE)

/-- Every sequence of calls preserves the invariant. -/
theorem PairInv_run (ops : List PairOp) (p : Pair) (h : PairInv p) : PairInv (p.run ops) := by
  induction ops generalizing p with
  | nil => exact h
  | cons op rest ih => exact ih (p.step op) (PairInv_step p op h)

/-- C4: two handles A and B on the same Key, each with an empty counter map, in front of one
store whose SetNX and script run atomically, no expiry, no other writer. After any sequence of
Lock and Unlock calls on A and B the two counters are never both greater than 0, and while the
counter of A is greater than 0 every Lock on B returns (false, err) with err non-nil and
leaves the store unchanged. -/
theorem mutual_exclusion (A B : RedisReentrantLock Store) (w : World Store)
    (ops : List PairOp) (hk : A.Key = B.Key)
    (hA : A.Client = storeClient) (hB : B.Client = storeClient)
    (hAl : A.locks = GoMap.empty) (hBl : B.locks = GoMap.empty) :
    ¬ (counterPos (Pair.run ⟨A, B, w⟩ ops).A = true ∧
        counterPos (Pair.run ⟨A, B, w⟩ ops).B = true) ∧
    (counterPos (Pair.run ⟨A, B, w⟩ ops).A = true →
      ∀ ctx : Context,
        (∃ err, (Lock (Pair.run ⟨A, B, w⟩ ops).B ctx (Pair.run ⟨A, B, w⟩ ops).world).ret =
          Ret.returned false (some err)) ∧
        (Lock (Pair.run ⟨A, B, w⟩ ops).B ctx (Pair.run ⟨A, B, w⟩ ops).world).world.store =
          (Pair.run ⟨A, B, w⟩ ops).world.store) := by
  have h0 : PairInv ⟨A, B, w⟩ := by
    refine ⟨hk, hA, hB, ?_, ?_, ?_, ?_⟩
    · simp [hAl, GoMap.empty]
    · simp [hBl, GoMap.empty]
    · simp [hasEntry, hAl, GoMap.empty, GoMap.lookup]
    · simp [hasEntry, hAl, hBl, GoMap.empty, GoMap.lookup]
  obtain ⟨ik, -, iB, -, imB, iex, ist⟩ := PairInv_run ops _ h0
  refine ⟨fun hboth => iex ⟨counterPos_hasEntry _ hboth.1, counterPos_hasEntry _ hboth.2⟩, ?_⟩
  intro hpos ctx
  have hEA := counterPos_hasEntry _ hpos
  have hEB : hasEntry (Pair.run ⟨A, B, w⟩ ops).B = false := by
    cases hE : hasEntry (Pair.run ⟨A, B, w⟩ ops).B with
    | false => rfl
    | true => exact absurd ⟨hEA, hE⟩ iex
  have hS : (Pair.run ⟨A, B, w⟩ ops).world.store (Pair.run ⟨A, B, w⟩ ops).B.Key ≠ none := by
    rw [← ik]
    exact ist (Or.inl hEA)
  obtain ⟨-, -, -, -, l5, -⟩ :=
    Lock_store_step (Pair.run ⟨A, B, w⟩ ops).B ctx (Pair.run ⟨A, B, w⟩ ops).world iB imB
  exact ⟨(l5 hEB hS).2.2, (l5 hEB hS).2.1⟩

theorem mutual_exclusion_witness :
    counterPos (Pair.run ⟨unheldHandle "t1", unheldHandle "t2", ⟨fun _ => none, 0⟩⟩
      [PairOp.lockA (Context.root 0), PairOp.lockA (Context.root 0)]).A = true ∧
    ¬ (counterPos (Pair.run ⟨unheldHandle "t1", unheldHandle "t2", ⟨fun _ => none, 0⟩⟩
        [PairOp.lockA (Context.root 0), PairOp.lockA (Context.root 0)]).A = true ∧
      counterPos (Pair.run ⟨unheldHandle "t1", unheldHandle "t2", ⟨fun _ => none, 0⟩⟩
        [PairOp.lockA (Context.root 0), PairOp.lockA (Context.root 0)]).B = true) :=
  ⟨by decide,
    (mutual_exclusion (unheldHandle "t1") (unheldHandle "t2") ⟨fun _ => none, 0⟩
      [PairOp.lockA (Context.root 0), PairOp.lockA (Context.root 0)] rfl rfl rfl rfl rfl).1⟩

/-! ## Sequences of calls on one handle: N times Lock, then N times Unlock -/

theorem wrapInt_add_left (a b : Int) : wrapInt (wrapInt a + b) = wrapInt (a + b) := by
  unfold wrapInt
  omega

theorem runOps_append {σ : Type} (xs ys : List Op) (rrl : RedisReentrantLock σ) (w : World σ) :
    runOps (xs ++ ys) rrl w =
      runOps xs rrl w ++ runOps ys (endHandle xs rrl w) (endWorld xs rrl w) := by
  induction xs generalizing rrl w with
  | nil => rfl
  | cons op rest ih => simp [runOps, endHandle, endWorld, ih]

theorem endHandle_append {σ : Type} (xs ys : List Op) (rrl : RedisReentrantLock σ)
    (w : World σ) :
    endHandle (xs ++ ys) rrl w = endHandle ys (endHandle xs rrl w) (endWorld xs rrl w) := by
  induction xs generalizing rrl w with
  | nil => rfl
  | cons op rest ih => simp [endHandle, endWorld, ih]

/-- A run of Lock calls on a handle that has a counter entry: all reentrant. -/
theorem runOps_locks_held {σ : Type} (ls : List Context) (rrl : RedisReentrantLock σ)
    (w : World σ) (c : GoInt) (hc : rrl.locks.lookup rrl.Key = some c) :
    (runOps (ls.map Op.lock) rrl w).map Outcome.ret =
      List.replicate ls.length (Ret.returned true none) ∧
    (runOps (ls.map Op.lock) rrl w).map Outcome.storeCalls = List.replicate ls.length [] ∧
    (endHandle (ls.map Op.lock) rrl w).locks.lookup rrl.Key =
      some (GoInt.ofInt (c.val + ls.length)) ∧
    (endHandle (ls.map Op.lock) rrl w).Key = rrl.Key ∧
    (endHandle (ls.map Op.lock) rrl w).Value = rrl.Value ∧
    (endHandle (ls.map Op.lock) rrl w).Client = rrl.Client ∧
    (endHandle (ls.map Op.lock) rrl w).cancelFunc = rrl.cancelFunc := by
  induction ls generalizing rrl c with
  | nil =>
    refine ⟨rfl, rfl, ?_, rfl, rfl, rfl, rfl⟩
    simp only [List.map_nil, endHandle, hc, List.length_nil, Nat.cast_zero, add_zero]
    congr 1
    exact GoInt.ext_val (wrapInt_of_range _ c.lo c.hi).symm
  | cons l rest ih =>
    obtain ⟨f, hm, hf⟩ := GoMap.lookup_some hc
    have hstep := Lock_of_entry rrl l w f c hm hf
    have hc1 : (Lock rrl l w).rrl.locks.lookup (Lock rrl l w).rrl.Key =
        some (c.add GoInt.one) := by
      rw [hstep]
      simp [GoMap.lookup]
    have hw : (Lock rrl l w).world = w := by rw [hstep]
    have hK : (Lock rrl l w).rrl.Key = rrl.Key := by rw [hstep]
    have hV : (Lock rrl l w).rrl.Value = rrl.Value := by rw [hstep]
    have hC : (Lock rrl l w).rrl.Client = rrl.Client := by rw [hstep]
    have hF : (Lock rrl l w).rrl.cancelFunc = rrl.cancelFunc := by rw [hstep]
    have hR : (Lock rrl l w).ret = Ret.returned true none := by rw [hstep]
    have hE : (Lock rrl l w).storeCalls = [] := by rw [hstep]; rfl
    obtain ⟨i1, i2, i3, i4, i5, i6, i7⟩ := ih (Lock rrl l w).rrl (c.add GoInt.one) hc1
    simp only [List.map_cons, runOps, endHandle, call, List.length_cons, hw] at *
    refine ⟨?_, ?_, ?_, by rw [i4, hK], by rw [i5, hV], by rw [i6, hC], by rw [i7, hF]⟩
    · rw [i1, hR, List.replicate_succ]
    · rw [i2, hE, List.replicate_succ]
    · rw [← hK, i3]
      congr 1
      apply GoInt.ext_val
      simp only [GoInt.ofInt, GoInt.add, GoInt.one, Nat.cast_add, Nat.cast_one]
      rw [wrapInt_add_left]
      congr 1
      omega

/-- A run of Unlock calls that never meets the counter 1: all nested. -/
theorem runOps_unlocks_nested {σ : Type} (us : List Context) (rrl : RedisReentrantLock σ)
    (w : World σ) (c : GoInt) (hc : rrl.locks.lookup rrl.Key = some c)
    (hne : ∀ j : Nat, j < us.length → wrapInt (c.val - j) ≠ 1) :
    (runOps (us.map Op.unlock) rrl w).map Outcome.ret =
      List.replicate us.length (Ret.returned true none) ∧
    (runOps (us.map Op.unlock) rrl w).map Outcome.storeCalls = List.replicate us.length [] ∧
    (endHandle (us.map Op.unlock) rrl w).locks.lookup rrl.Key =
      some (GoInt.ofInt (c.val - us.length)) ∧
    (endHandle (us.map Op.unlock) rrl w).Key = rrl.Key ∧
    (endHandle (us.map Op.unlock) rrl w).Value = rrl.Value ∧
    (endHandle (us.map Op.unlock) rrl w).Client = rrl.Client ∧
    (endHandle (us.map Op.unlock) rrl w).cancelFunc = rrl.cancelFunc ∧
    endWorld (us.map Op.unlock) rrl w = w := by
  induction us generalizing rrl c with
  | nil =>
    refine ⟨rfl, rfl, ?_, rfl, rfl, rfl, rfl, rfl⟩
    simp only [List.map_nil, endHandle, hc, List.length_nil, Nat.cast_zero, sub_zero]
    congr 1
    exact GoInt.ext_val (wrapInt_of_range _ c.lo c.hi).symm
  | cons u rest ih =>
    obtain ⟨f, hm, hf⟩ := GoMap.lookup_some hc
    have h1 : c.val ≠ 1 := by
      have h0 := hne 0 (by simp)
      simp only [Nat.cast_zero, sub_zero] at h0
      rwa [wrapInt_of_range _ c.lo c.hi] at h0
    have hstep := Unlock_of_entry rrl u w f c hm hf h1
    have hc1 : (Unlock rrl u w).rrl.locks.lookup (Unlock rrl u w).rrl.Key =
        some (c.sub GoInt.one) := by
      rw [hstep]
      simp [GoMap.lookup]
    have hw : (Unlock rrl u w).world = w := by rw [hstep]
    have hK : (Unlock rrl u w).rrl.Key = rrl.Key := by rw [hstep]
    have hV : (Unlock rrl u w).rrl.Value = rrl.Value := by rw [hstep]
    have hC : (Unlock rrl u w).rrl.Client = rrl.Client := by rw [hstep]
    have hF : (Unlock rrl u w).rrl.cancelFunc = rrl.cancelFunc := by rw [hstep]
    have hR : (Unlock rrl u w).ret = Ret.returned true none := by rw [hstep]
    have hE : (Unlock rrl u w).storeCalls = [] := by rw [hstep]; rfl
    have hne1 : ∀ j : Nat, j < rest.length → wrapInt ((c.sub GoInt.one).val - j) ≠ 1 := by
      intro j hj
      have hj1 := hne (j + 1) (by simp; omega)
      simp only [GoInt.sub, GoInt.ofInt, GoInt.one]
      rw [sub_eq_add_neg, wrapInt_add_left]
      have : c.val - 1 + -(j : Int) = c.val - ((j + 1 : Nat) : Int) := by
        push_cast
        omega
      rw [this]
      exact hj1
    obtain ⟨i1, i2, i3, i4, i5, i6, i7, i8⟩ :=
      ih (Unlock rrl u w).rrl (c.sub GoInt.one) hc1 hne1
    simp only [List.map_cons, runOps, endHandle, endWorld, call, List.length_cons, hw] at *
    refine ⟨?_, ?_, ?_, by rw [i4, hK], by rw [i5, hV], by rw [i6, hC], by rw [i7, hF], i8⟩
    · rw [i1, hR, List.replicate_succ]
    · rw [i2, hE, List.replicate_succ]
    · rw [← hK, i3]
      congr 1
      apply GoInt.ext_val
      simp only [GoInt.ofInt, GoInt.sub, GoInt.one, Nat.cast_add, Nat.cast_one]
      rw [sub_eq_add_neg, wrapInt_add_left]
      congr 1
      omega

/-- Lock on a handle with a counter map but no entry, when SetNX reports true: the key is
acquired. -/
theorem Lock_fresh {σ : Type} (rrl : RedisReentrantLock σ) (ctx : Context) (w : World σ)
    (f : String → Option GoInt) (hm : rrl.locks = some f) (hf : f rrl.Key = none)
    (hr : (rrl.Client.SetNX ctx rrl.Key rrl.Value 0 w.store).1 = (true, none)) :
    Lock rrl ctx w =
      ⟨Ret.returned true none,
        ⟨rrl.Client, rrl.Key, rrl.Value,
          some (fun j => if j = rrl.Key then some GoInt.one else f j),
          some ⟨Context.withCancel ctx w.nextCtx⟩⟩,
        ⟨(rrl.Client.SetNX ctx rrl.Key rrl.Value 0 w.store).2, w.nextCtx + 1⟩,
        [Event.SetNX ctx rrl.Key rrl.Value 0,
          Event.goRefresh (Context.withCancel ctx w.nextCtx)]⟩ := by
  simp [Lock, hm, GoMap.lookup, hf, hr, GoMap.assign, refresh]

/-- The final release when Eval replies the integer 1 and the cancel function is set. -/
theorem Unlock_of_one_ok {σ : Type} (rrl : RedisReentrantLock σ) (ctx : Context) (w : World σ)
    (c : GoInt) (g : CancelFunc) (hc : rrl.locks.lookup rrl.Key = some c) (h1 : c.val = 1)
    (hg : rrl.cancelFunc = some g)
    (hr : (rrl.Client.Eval ctx script [rrl.Key] [rrl.Value] w.store).1 =
      (GoAny.int64 1, none)) :
    (Unlock rrl ctx w).ret = Ret.returned true none ∧
    (Unlock rrl ctx w).storeCalls = [Event.Eval ctx script [rrl.Key] [rrl.Value]] ∧
    (Unlock rrl ctx w).rrl.locks.lookup rrl.Key = none := by
  obtain ⟨hrrl, -, hs⟩ := Unlock_of_one_state rrl ctx w c hc h1
  refine ⟨?_, hs, ?_⟩
  · rw [Unlock_of_one rrl ctx w c hc h1]
    simp [hr, GoAny.eqZero, hg]
  · rw [hrrl]
    exact GoMap.lookup_delete _ _

/-- The handle after a first Lock and a run of further Lock calls, all store calls
succeeding: the counter is the wrapped number of calls. -/
theorem runOps_lock_first {σ : Type} (rrl : RedisReentrantLock σ) (w : World σ) (l0 : Context)
    (ls : List Context) (hl : rrl.locks = GoMap.empty) (hcl : AllSucceed rrl.Client) :
    (runOps (Op.lock l0 :: ls.map Op.lock) rrl w).map Outcome.ret =
      Ret.returned true none :: List.replicate ls.length (Ret.returned true none) ∧
    (runOps (Op.lock l0 :: ls.map Op.lock) rrl w).map Outcome.storeCalls =
      [Event.SetNX l0 rrl.Key rrl.Value 0] :: List.replicate ls.length [] ∧
    (endHandle (Op.lock l0 :: ls.map Op.lock) rrl w).locks.lookup rrl.Key =
      some (GoInt.ofInt (1 + ls.length)) ∧
    (endHandle (Op.lock l0 :: ls.map Op.lock) rrl w).Key = rrl.Key ∧
    (endHandle (Op.lock l0 :: ls.map Op.lock) rrl w).Value = rrl.Value ∧
    (endHandle (Op.lock l0 :: ls.map Op.lock) rrl w).Client = rrl.Client ∧
    (endHandle (Op.lock l0 :: ls.map Op.lock) rrl w).cancelFunc =
      some ⟨Context.withCancel l0 w.nextCtx⟩ := by
  have hstep := Lock_fresh rrl l0 w (fun _ => none) hl rfl (hcl.1 _ _ _ _ _)
  have hc1 : (Lock rrl l0 w).rrl.locks.lookup (Lock rrl l0 w).rrl.Key = some GoInt.one := by
    rw [hstep]
    simp [GoMap.lookup]
  have hK : (Lock rrl l0 w).rrl.Key = rrl.Key := by rw [hstep]
  have hV : (Lock rrl l0 w).rrl.Value = rrl.Value := by rw [hstep]
  have hC : (Lock rrl l0 w).rrl.Client = rrl.Client := by rw [hstep]
  have hF : (Lock rrl l0 w).rrl.cancelFunc = some ⟨Context.withCancel l0 w.nextCtx⟩ := by
    rw [hstep]
  have hR : (Lock rrl l0 w).ret = Ret.returned true none := by rw [hstep]
  have hE : (Lock rrl l0 w).storeCalls = [Event.SetNX l0 rrl.Key rrl.Value 0] := by
    rw [hstep]
    rfl
  obtain ⟨i1, i2, i3, i4, i5, i6, i7⟩ :=
    runOps_locks_held ls (Lock rrl l0 w).rrl (Lock rrl l0 w).world GoInt.one hc1
  simp only [runOps, endHandle, call, List.map_cons]
  refine ⟨by rw [i1, hR], by rw [i2, hE], ?_, by rw [i4, hK], by rw [i5, hV], by rw [i6, hC],
    by rw [i7, hF]⟩
  rw [← hK, i3]
  rfl

/-- N calls of Lock, then N calls of Unlock, for 1 <= N <= 2^64, all store calls succeeding:
the results, the store calls of every call (the last Unlock issues the Eval), and the final
counter entry. -/
theorem nested_pairs_exact {σ : Type} (N : Nat) (hhi : N ≤ 18446744073709551616)
    (rrl : RedisReentrantLock σ) (w : World σ) (l0 : Context) (ls us : List Context)
    (u1 : Context) (hl : rrl.locks = GoMap.empty) (hcl : AllSucceed rrl.Client)
    (hls : ls.length + 1 = N) (hus : us.length + 1 = N) :
    (runOps (Op.lock l0 :: ls.map Op.lock ++ (us.map Op.unlock ++ [Op.unlock u1])) rrl w).map
        Outcome.ret = List.replicate (2 * N) (Ret.returned true none) ∧
    (runOps (Op.lock l0 :: ls.map Op.lock ++ (us.map Op.unlock ++ [Op.unlock u1])) rrl w).map
        Outcome.storeCalls =
      [Event.SetNX l0 rrl.Key rrl.Value 0] :: List.replicate (N - 1) [] ++
        (List.replicate (N - 1) [] ++ [[Event.Eval u1 script [rrl.Key] [rrl.Value]]]) ∧
    (endHandle (Op.lock l0 :: ls.map Op.lock ++ (us.map Op.unlock ++ [Op.unlock u1])) rrl
        w).locks.lookup rrl.Key = none := by
  subst hls
  have hlen : us.length = ls.length := by omega
  obtain ⟨a1, a2, a3, a4, a5, a6, a7⟩ := runOps_lock_first rrl w l0 ls hl hcl
  have hne : ∀ j : Nat, j < us.length →
      wrapInt ((GoInt.ofInt (1 + ls.length)).val - j) ≠ 1 := by
    intro j hj
    simp only [GoInt.ofInt]
    rw [sub_eq_add_neg, wrapInt_add_left]
    unfold wrapInt
    omega
  have a3k : (endHandle (Op.lock l0 :: ls.map Op.lock) rrl w).locks.lookup
      (endHandle (Op.lock l0 :: ls.map Op.lock) rrl w).Key =
      some (GoInt.ofInt (1 + ls.length)) := by rw [a4]; exact a3
  obtain ⟨b1, b2, b3, b4, b5, b6, b7, -⟩ :=
    runOps_unlocks_nested us (endHandle (Op.lock l0 :: ls.map Op.lock) rrl w)
      (endWorld (Op.lock l0 :: ls.map Op.lock) rrl w) (GoInt.ofInt (1 + ls.length)) a3k hne
  have hone : (GoInt.ofInt ((GoInt.ofInt (1 + ls.length)).val - us.length)).val = 1 := by
    simp only [GoInt.ofInt]
    rw [sub_eq_add_neg, wrapInt_add_left, hlen]
    unfold wrapInt
    omega
  have b3k :
      (endHandle (us.map Op.unlock) (endHandle (Op.lock l0 :: ls.map Op.lock) rrl w)
        (endWorld (Op.lock l0 :: ls.map Op.lock) rrl w)).locks.lookup
      (endHandle (us.map Op.unlock) (endHandle (Op.lock l0 :: ls.map Op.lock) rrl w)
        (endWorld (Op.lock l0 :: ls.map Op.lock) rrl w)).Key =
      some (GoInt.ofInt ((GoInt.ofInt (1 + ls.length)).val - us.length)) := by
    rw [b4]
    exact b3
  obtain ⟨c1, c2, c3⟩ :=
    Unlock_of_one_ok
      (endHandle (us.map Op.unlock) (endHandle (Op.lock l0 :: ls.map Op.lock) rrl w)
        (endWorld (Op.lock l0 :: ls.map Op.lock) rrl w)) u1
      (endWorld (us.map Op.unlock) (endHandle (Op.lock l0 :: ls.map Op.lock) rrl w)
        (endWorld (Op.lock l0 :: ls.map Op.lock) rrl w))
      _ ⟨Context.withCancel l0 w.nextCtx⟩ b3k hone (by rw [b7, a7])
      (by rw [b6, a6]; exact hcl.2 _ _ _ _ _)
  rw [b4, b5, a4, a5] at c2
  rw [b4, a4] at c3
  refine ⟨?_, ?_, ?_⟩
  · rw [runOps_append, runOps_append, List.map_append, List.map_append, a1, b1]
    simp only [runOps, call, List.map_cons, List.map_nil, c1]
    rw [List.eq_replicate_iff]
    constructor
    · simp only [List.length_append, List.length_cons, List.length_replicate,
        List.length_nil]
      omega
    · intro b hb
      simp only [List.mem_append, List.mem_cons, List.mem_replicate, List.mem_singleton,
        List.not_mem_nil, or_false] at hb
      rcases hb with (h | h) | h | h
      · exact h
      · exact h.2
      · exact h.2
      · exact h
  · rw [runOps_append, runOps_append, List.map_append, List.map_append, a2, b2]
    simp only [runOps, call, List.map_cons, List.map_nil, c2, Nat.add_sub_cancel, hlen]
  · rw [endHandle_append, endHandle_append]
    simp only [endHandle, call]
    exact c3

/-- C7 (as amended): for every N with 1 <= N <= 2^64, N calls of Lock followed by N calls of
Unlock on an unheld handle with an empty counter map, all store calls succeeding, return
(true, nil) every time; the first Lock issues exactly one SetNX, the last Unlock at most one
Eval (indeed exactly one), the calls between them issue no store call, and the handle ends
without a counter entry. -/
theorem nested_pairs (N : Nat) (_ : 1 ≤ N) (hhi : N ≤ 18446744073709551616) :
    NestedPairs N := by
  intro σ rrl w l0 ls us u1 hl hcl hls hus
  obtain ⟨h1, h2, h3⟩ := nested_pairs_exact N hhi rrl w l0 ls us u1 hl hcl hls hus
  exact ⟨h1, ⟨_, Or.inr rfl, h2⟩, h3⟩

theorem nested_pairs_witness :
    (runOps [Op.lock (Context.root 0), Op.lock (Context.root 1), Op.unlock (Context.root 2),
        Op.unlock (Context.root 3)] okHandle ⟨(), 0⟩).map Outcome.ret =
      [Ret.returned true none, Ret.returned true none, Ret.returned true none,
        Ret.returned true none] ∧
    (endHandle [Op.lock (Context.root 0), Op.lock (Context.root 1), Op.unlock (Context.root 2),
        Op.unlock (Context.root 3)] okHandle ⟨(), 0⟩).locks.lookup "res" = none :=
  ⟨(nested_pairs 2 (by decide) (by decide) Unit okHandle ⟨(), 0⟩ (Context.root 0)
      [Context.root 1] [Context.root 2] (Context.root 3) rfl
      ⟨fun _ _ _ _ _ => rfl, fun _ _ _ _ _ => rfl⟩ rfl rfl).1,
    (nested_pairs 2 (by decide) (by decide) Unit okHandle ⟨(), 0⟩ (Context.root 0)
      [Context.root 1] [Context.root 2] (Context.root 3) rfl
      ⟨fun _ _ _ _ _ => rfl, fun _ _ _ _ _ => rfl⟩ rfl rfl).2.2⟩

/-- The property fails for every N of at least 2 that wraps to 1 as an int: after N calls of
Lock the counter is 1, so the first Unlock already issues the Eval. -/
theorem NestedPairs_fails_of_wrap (M : Nat) (hw : wrapInt ((M : Int) + 2) = 1) :
    ¬ NestedPairs (M + 2) := by
  intro h
  obtain ⟨ls, hls⟩ : ∃ ls : List Context, ls.length = M + 1 :=
    ⟨List.replicate (M + 1) (Context.root 0), List.length_replicate _ _⟩
  obtain ⟨us, hus⟩ : ∃ us : List Context, us.length = M :=
    ⟨List.replicate M (Context.root 0), List.length_replicate _ _⟩
  obtain ⟨-, ⟨last, -, hsc⟩, -⟩ := h Unit okHandle ⟨(), 0⟩ (Context.root 0) ls
    (Context.root 0 :: us) (Context.root 0) rfl
    ⟨fun _ _ _ _ _ => rfl, fun _ _ _ _ _ => rfl⟩
    (by rw [hls]) (by rw [List.length_cons, hus])
  obtain ⟨-, a2, a3, a4, -, -, -⟩ := runOps_lock_first okHandle ⟨(), 0⟩ (Context.root 0)
    ls rfl ⟨fun _ _ _ _ _ => rfl, fun _ _ _ _ _ => rfl⟩
  rw [hls] at a2 a3
  have hM : M + 2 - 1 = M + 1 := by omega
  rw [runOps_append, List.map_append, a2, hM] at hsc
  have hsc2 := List.append_cancel_left hsc
  have a3k : (endHandle (Op.lock (Context.root 0) :: ls.map Op.lock) okHandle
        ⟨(), 0⟩).locks.lookup
      (endHandle (Op.lock (Context.root 0) :: ls.map Op.lock) okHandle ⟨(), 0⟩).Key =
      some (GoInt.ofInt (1 + (M + 1 : Nat))) := by rw [a4]; exact a3
  have hone : (GoInt.ofInt (1 + (M + 1 : Nat))).val = 1 := by
    have he : (1 : Int) + ((M + 1 : Nat) : Int) = (M : Int) + 2 := by
      push_cast
      omega
    rw [he]
    exact hw
  obtain ⟨-, -, hs⟩ := Unlock_of_one_state _ (Context.root 0)
    (endWorld (Op.lock (Context.root 0) :: ls.map Op.lock) okHandle ⟨(), 0⟩) _ a3k hone
  simp only [List.map_cons, List.cons_append, runOps, call, List.replicate_succ] at hsc2
  have hhead := (List.cons.inj hsc2).1
  rw [hs] at hhead
  exact absurd hhead (List.cons_ne_nil _ _)

/-- C7 (as stated) fails at N = 2^64 + 1: the counter wraps, after the N calls of Lock it is 1
again, and the first of the N calls of Unlock issues the Eval, so the property of N calls of
Lock followed by N calls of Unlock does not hold for that N. -/
theorem nested_pairs_fails_after_wrap :
    ((endHandle (Op.lock (Context.root 0) ::
        (List.replicate 18446744073709551616 (Context.root 0)).map Op.lock) okHandle
        ⟨(), 0⟩).locks.lookup "res").map GoInt.val = some 1 ∧
    ¬ NestedPairs 18446744073709551617 := by
  constructor
  · have h := (runOps_lock_first okHandle ⟨(), 0⟩ (Context.root 0)
      (List.replicate 18446744073709551616 (Context.root 0)) rfl
      ⟨fun _ _ _ _ _ => rfl, fun _ _ _ _ _ => rfl⟩).2.2.1
    rw [List.length_replicate] at h
    have hk : okHandle.Key = "res" := rfl
    rw [hk] at h
    rw [h]
    show some (wrapInt (1 + ((18446744073709551616 : Nat) : Int))) = some 1
    congr 1
  · exact NestedPairs_fails_of_wrap 18446744073709551615 (by unfold wrapInt; norm_num)

/-! ## Unheld handles -/

/-- Unlock on a handle without a counter entry does nothing. -/
theorem Unlock_of_none {σ : Type} (rrl : RedisReentrantLock σ) (ctx : Context) (w : World σ)
    (hc : rrl.locks.lookup rrl.Key = none) :
    Unlock rrl ctx w = ⟨Ret.returned true none, rrl, w, []⟩ := by
  simp [Unlock, hc]

/-- C11: on a handle without a counter entry for Key (the nil map of a new handle included),
Unlock returns (true, nil), produces no event (no store call, no call of the cancel function),
leaves the handle and the world as they were, and a second Unlock does the same. -/
theorem Unlock_unheld {σ : Type} (rrl : RedisReentrantLock σ) (ctx ctx2 : Context)
    (w : World σ) (hc : rrl.locks.lookup rrl.Key = none) :
    (Unlock rrl ctx w).ret = Ret.returned true none ∧
    (Unlock rrl ctx w).events = [] ∧
    (Unlock rrl ctx w).rrl = rrl ∧
    (Unlock rrl ctx w).world = w ∧
    (Unlock (Unlock rrl ctx w).rrl ctx2 (Unlock rrl ctx w).world).ret =
      Ret.returned true none ∧
    (Unlock (Unlock rrl ctx w).rrl ctx2 (Unlock rrl ctx w).world).events = [] ∧
    (Unlock (Unlock rrl ctx w).rrl ctx2 (Unlock rrl ctx w).world).rrl = rrl ∧
    (Unlock (Unlock rrl ctx w).rrl ctx2 (Unlock rrl ctx w).world).world = w := by
  have h1 := Unlock_of_none rrl ctx w hc
  have h2 := Unlock_of_none rrl ctx2 w hc
  have h3 : Unlock (Unlock rrl ctx w).rrl ctx2 (Unlock rrl ctx w).world =
      ⟨Ret.returned true none, rrl, w, []⟩ := by
    rw [h1]
    exact h2
  refine ⟨?_, ?_, ?_, ?_, ?_, ?_, ?_, ?_⟩
  · rw [h1]
  · rw [h1]
  · rw [h1]
  · rw [h1]
  · rw [h3]
  · rw [h3]
  · rw [h3]
  · rw [h3]

theorem Unlock_unheld_witness :
    (Unlock (NewRedisReentrantLock storeClient "res" "t1") (Context.root 0)
      ⟨resStore "t2", 0⟩).ret = Ret.returned true none ∧
    (Unlock (NewRedisReentrantLock storeClient "res" "t1") (Context.root 0)
      ⟨resStore "t2", 0⟩).events = [] :=
  ⟨(Unlock_unheld (NewRedisReentrantLock storeClient "res" "t1") (Context.root 0)
      (Context.root 1) ⟨resStore "t2", 0⟩ rfl).1,
    (Unlock_unheld (NewRedisReentrantLock storeClient "res" "t1") (Context.root 0)
      (Context.root 1) ⟨resStore "t2", 0⟩ rfl).2.1⟩

/-- C12: on a handle without a counter entry for Key, when SetNX returns an error e, Lock
returns (false, e), its only event is that one SetNX (no retry, no renewer), and the handle is
unchanged (no counter entry, same cancel function). -/
theorem Lock_store_error {σ : Type} (rrl : RedisReentrantLock σ) (ctx : Context) (w : World σ)
    (e : GoError) (hc : rrl.locks.lookup rrl.Key = none)
    (hr : (rrl.Client.SetNX ctx rrl.Key rrl.Value 0 w.store).1.2 = some e) :
    (Lock rrl ctx w).ret = Ret.returned false (some e) ∧
    (Lock rrl ctx w).events = [Event.SetNX ctx rrl.Key rrl.Value 0] ∧
    (Lock rrl ctx w).rrl = rrl ∧
    (Lock rrl ctx w).rrl.locks.lookup rrl.Key = none := by
  simp [Lock, hc, hr]

theorem Lock_store_error_witness :
    (Lock (⟨fixedClient (false, some (GoError.fromClient 3)) (GoAny.nil, none), "res", "t1",
      GoMap.empty, none⟩ : RedisReentrantLock Unit) (Context.root 0) ⟨(), 0⟩).ret =
      Ret.returned false (some (GoError.fromClient 3)) :=
  (Lock_store_error (⟨fixedClient (false, some (GoError.fromClient 3)) (GoAny.nil, none),
    "res", "t1", GoMap.empty, none⟩ : RedisReentrantLock Unit) (Context.root 0) ⟨(), 0⟩
    (GoError.fromClient 3) rfl rfl).1

/-- The events of Lock: none, the SetNX alone, or the SetNX and the go statement. -/
theorem Lock_events {σ : Type} (rrl : RedisReentrantLock σ) (ctx : Context) (w : World σ) :
    ((Lock rrl ctx w).events = [] ∧ (rrl.locks.lookup rrl.Key).isSome = true) ∨
    ((Lock rrl ctx w).events = [Event.SetNX ctx rrl.Key rrl.Value 0] ∧
      rrl.locks.lookup rrl.Key = none) ∨
    ((Lock rrl ctx w).events = [Event.SetNX ctx rrl.Key rrl.Value 0,
        Event.goRefresh (Context.withCancel ctx w.nextCtx)] ∧
      rrl.locks.lookup rrl.Key = none) := by
  cases hc : rrl.locks.lookup rrl.Key with
  | some c =>
    left
    obtain ⟨f, hm, hf⟩ := GoMap.lookup_some hc
    rw [Lock_of_entry rrl ctx w f c hm hf]
    exact ⟨rfl, rfl⟩
  | none =>
    right
    cases he : (rrl.Client.SetNX ctx rrl.Key rrl.Value 0 w.store).1.2 with
    | some err => left; simp [Lock, hc, he]
    | none =>
      cases hb : (rrl.Client.SetNX ctx rrl.Key rrl.Value 0 w.store).1.1 with
      | false => left; simp [Lock, hc, he, hb]
      | true =>
        right
        cases hm : rrl.locks with
        | none => simp [Lock, he, hb, hm, GoMap.lookup, GoMap.assign, refresh]
        | some f =>
          have hf : f rrl.Key = none := by
            rw [hm] at hc
            simpa [GoMap.lookup] using hc
          simp [Lock, he, hb, hm, GoMap.lookup, hf, GoMap.assign, refresh]

/-- C14: on a handle without a counter entry for Key, Lock issues exactly one store call,
SetNX with the Key and the Value of the handle and expiration 0, whatever the reply; and on
any handle no event of Lock is a call of Expire or of Del. -/
theorem Lock_unheld_calls {σ : Type} (rrl : RedisReentrantLock σ) (ctx : Context)
    (w : World σ) :
    (rrl.locks.lookup rrl.Key = none →
      (Lock rrl ctx w).storeCalls = [Event.SetNX ctx rrl.Key rrl.Value 0]) ∧
    (∀ e ∈ (Lock rrl ctx w).events,
      (∀ c k d, e ≠ Event.Expire c k d) ∧ (∀ c ks, e ≠ Event.Del c ks)) := by
  rcases Lock_events rrl ctx w with ⟨h, hs⟩ | ⟨h, hn⟩ | ⟨h, hn⟩
  · constructor
    · intro hc
      rw [hc] at hs
      exact absurd hs (by simp)
    · intro e he
      rw [h] at he
      exact absurd he (List.not_mem_nil e)
  · constructor
    · intro _
      simp [Outcome.storeCalls, h, Event.isStoreCall]
    · intro e he
      rw [h] at he
      simp only [List.mem_singleton] at he
      subst he
      exact ⟨fun _ _ _ hx => (by cases hx), fun _ _ hx => (by cases hx)⟩
  · constructor
    · intro _
      simp [Outcome.storeCalls, h, Event.isStoreCall]
    · intro e he
      rw [h] at he
      simp only [List.mem_cons, List.mem_singleton, List.not_mem_nil, or_false] at he
      rcases he with he | he <;> subst he <;>
        exact ⟨fun _ _ _ hx => (by cases hx), fun _ _ hx => (by cases hx)⟩

theorem Lock_unheld_calls_witness :
    (Lock (unheldHandle "t1") (Context.root 0) ⟨resStore "t2", 0⟩).storeCalls =
      [Event.SetNX (Context.root 0) "res" "t1" 0] :=
  (Lock_unheld_calls (unheldHandle "t1") (Context.root 0) ⟨resStore "t2", 0⟩).1 rfl

/-! ## Lock, then Unlock -/

/-- C19: on a handle whose counter for Key is n with 1 <= n < 2^63 - 1, Lock and then Unlock
both return (true, nil), produce no event (no store call), and leave the handle and the world
exactly as they were: counter n, same cancel function. -/
theorem Lock_then_Unlock {σ : Type} (rrl : RedisReentrantLock σ) (ctx ctx2 : Context)
    (w : World σ) (c : GoInt) (hc : rrl.locks.lookup rrl.Key = some c)
    (h1 : 1 ≤ c.val) (h2 : c.val < 9223372036854775807) :
    (Lock rrl ctx w).ret = Ret.returned true none ∧
    (Lock rrl ctx w).events = [] ∧
    (Unlock (Lock rrl ctx w).rrl ctx2 (Lock rrl ctx w).world).ret = Ret.returned true none ∧
    (Unlock (Lock rrl ctx w).rrl ctx2 (Lock rrl ctx w).world).events = [] ∧
    (Unlock (Lock rrl ctx w).rrl ctx2 (Lock rrl ctx w).world).rrl = rrl ∧
    (Unlock (Lock rrl ctx w).rrl ctx2 (Lock rrl ctx w).world).world = w := by
  obtain ⟨f, hm, hf⟩ := GoMap.lookup_some hc
  have hadd : (c.add GoInt.one).val = c.val + 1 := GoInt.add_one_val c h2
  have hne : (c.add GoInt.one).val ≠ 1 := by omega
  have hsub : (c.add GoInt.one).sub GoInt.one = c := by
    apply GoInt.ext_val
    rw [GoInt.sub_one_val _ (by omega), hadd]
    omega
  rw [Lock_of_entry rrl ctx w f c hm hf]
  refine ⟨rfl, rfl, ?_⟩
  rw [Unlock_of_entry _ ctx2 w (fun j => if j = rrl.Key then some (c.add GoInt.one) else f j)
    (c.add GoInt.one) rfl (by simp) hne]
  refine ⟨rfl, rfl, ?_, rfl⟩
  obtain ⟨cl, key, value, locks, cf⟩ := rrl
  simp only at hm hf
  subst hm
  simp only [hsub]
  congr 2
  funext j
  by_cases hj : j = key
  · simp [hj, hf]
  · simp [hj]

theorem Lock_then_Unlock_witness :
    (Unlock (Lock (heldHandle GoInt.two (GoAny.int64 1, none)) (Context.root 0) ⟨(), 1⟩).rrl
      (Context.root 1)
      (Lock (heldHandle GoInt.two (GoAny.int64 1, none)) (Context.root 0) ⟨(), 1⟩).world).rrl =
      heldHandle GoInt.two (GoAny.int64 1, none) :=
  (Lock_then_Unlock (heldHandle GoInt.two (GoAny.int64 1, none)) (Context.root 0)
    (Context.root 1) ⟨(), 1⟩ GoInt.two rfl (by decide) (by decide)).2.2.2.2.1

/-! ## The renewer -/

/-- The loop over `n` ticks: still running, `n` calls of Expire made on the client one after
the other, and their `n` events. -/
theorem refreshLoop_ticks {σ : Type} (rrl : RedisReentrantLock σ) (ctx : Context) (n : Nat)
    (s : σ) :
    refreshLoop rrl ctx (List.replicate n Wake.tick) s =
      (true, expireState rrl ctx n s,
        List.replicate n (Event.Expire ctx rrl.Key defaultExpiration)) := by
  induction n generalizing s with
  | zero => rfl
  | succ k ih =>
    simp only [List.replicate_succ, refreshLoop, refreshRound, if_true, expireState,
      ih (rrl.Client.Expire ctx rrl.Key defaultExpiration s).2, List.singleton_append]

/-- The loop over `n` ticks and then the cancelled context: it has ended, after `n` calls of
Expire, whatever wake-ups would follow. -/
theorem refreshLoop_ticks_done {σ : Type} (rrl : RedisReentrantLock σ) (ctx : Context)
    (n : Nat) (rest : List Wake) (s : σ) :
    refreshLoop rrl ctx (List.replicate n Wake.tick ++ Wake.done :: rest) s =
      (false, expireState rrl ctx n s,
        List.replicate n (Event.Expire ctx rrl.Key defaultExpiration)) := by
  induction n generalizing s with
  | zero => simp [refreshLoop, refreshRound, expireState]
  | succ k ih =>
    have h := ih (rrl.Client.Expire ctx rrl.Key defaultExpiration s).2
    rw [List.replicate_succ, List.cons_append]
    simp only [refreshLoop, refreshRound, if_true, expireState, h, List.singleton_append,
      List.replicate_succ]

/-- C15: the lease is 10 s in nanoseconds and the tick period is its sixth by integer
division, 1666666666 ns, so six periods do not exceed the lease and five are strictly below
it; the goroutine makes its ticker with that period (without panic) and runs the loop, and
the lease set at one tick lasts until the sixth tick after it; a round of the loop on a tick
makes exactly one call on the client, Expire of Key with the lease, whose state it passes on
and whose reply it drops, so it goes on whatever the client replies (any two clients give the
same continuation and the same event); only a round on the cancelled context ends the loop,
without a store call; over any number of ticks the loop is still running and has made that
many Expire calls on the client, and the first cancelled wake-up after them ends it. -/
theorem renewer_rounds :
    defaultExpiration = 10000000000 ∧ tickerPeriod = 1666666666 ∧
    6 * tickerPeriod ≤ defaultExpiration ∧ 5 * tickerPeriod < defaultExpiration ∧
    (∀ (σ : Type) (rrl : RedisReentrantLock σ) (ctx : Context) (s : σ),
      (refreshRound rrl ctx s Wake.tick).1 = true ∧
      (refreshRound rrl ctx s Wake.tick).2.2 = [Event.Expire ctx rrl.Key defaultExpiration] ∧
      refreshRound rrl ctx s Wake.done = (false, s, [])) ∧
    (∀ (σ τ : Type) (r1 : RedisReentrantLock σ) (r2 : RedisReentrantLock τ) (ctx : Context)
      (s : σ) (t : τ), r1.Key = r2.Key →
      (refreshRound r1 ctx s Wake.tick).1 = (refreshRound r2 ctx t Wake.tick).1 ∧
      (refreshRound r1 ctx s Wake.tick).2.2 = (refreshRound r2 ctx t Wake.tick).2.2) ∧
    (∀ (σ : Type) (rrl : RedisReentrantLock σ) (ctx : Context) (n : Nat) (s : σ),
      (refreshLoop rrl ctx (List.replicate n Wake.tick) s).1 = true ∧
      (refreshLoop rrl ctx (List.replicate n Wake.tick) s).2.2 =
        List.replicate n (Event.Expire ctx rrl.Key defaultExpiration)) ∧
    (∀ (σ : Type) (rrl : RedisReentrantLock σ) (ctx : Context) (s : σ),
      (refreshRound rrl ctx s Wake.tick).2.1 =
        (rrl.Client.Expire ctx rrl.Key defaultExpiration s).2) ∧
    (∀ (σ : Type) (rrl : RedisReentrantLock σ) (ctx : Context) (n : Nat) (s : σ),
      (refreshLoop rrl ctx (List.replicate n Wake.tick) s).2.1 = expireState rrl ctx n s ∧
      expireState rrl ctx 0 s = s ∧
      expireState rrl ctx (n + 1) s =
        expireState rrl ctx n (rrl.Client.Expire ctx rrl.Key defaultExpiration s).2) ∧
    (∀ (σ : Type) (rrl : RedisReentrantLock σ) (ctx : Context) (n : Nat) (rest : List Wake)
      (s : σ),
      refreshLoop rrl ctx (List.replicate n Wake.tick ++ Wake.done :: rest) s =
        (false, expireState rrl ctx n s,
          List.replicate n (Event.Expire ctx rrl.Key defaultExpiration))) ∧
    (∀ (σ : Type) (rrl : RedisReentrantLock σ) (ctx : Context) (wakes : List Wake) (s : σ),
      refreshBody rrl ctx wakes s =
        some (⟨1666666666⟩, refreshLoop rrl ctx wakes s)) ∧
    NewTicker tickerPeriod = some ⟨tickerPeriod⟩ ∧
    (∀ k : Nat, (Ticker.mk tickerPeriod).tickTime (k + 1) -
        (Ticker.mk tickerPeriod).tickTime k = 1666666666 ∧
      (Ticker.mk tickerPeriod).tickTime (k + 6) ≤
        (Ticker.mk tickerPeriod).tickTime k + defaultExpiration ∧
      (Ticker.mk tickerPeriod).tickTime (k + 5) <
        (Ticker.mk tickerPeriod).tickTime k + defaultExpiration) := by
  have hp : tickerPeriod = 1666666666 := by decide
  have hd : defaultExpiration = 10000000000 := by decide
  refine ⟨hd, hp, by decide, by decide, ?_, ?_, ?_, ?_, ?_, ?_, ?_, by decide, ?_⟩
  · intro σ rrl ctx s
    exact ⟨rfl, rfl, rfl⟩
  · intro σ τ r1 r2 ctx s t hk
    refine ⟨rfl, ?_⟩
    simp only [refreshRound, hk]
  · intro σ rrl ctx n s
    rw [refreshLoop_ticks]
    exact ⟨rfl, rfl⟩
  · intro σ rrl ctx s
    rfl
  · intro σ rrl ctx n s
    rw [refreshLoop_ticks]
    exact ⟨rfl, rfl, rfl⟩
  · intro σ rrl ctx n rest s
    exact refreshLoop_ticks_done rrl ctx n rest s
  · intro σ rrl ctx wakes s
    have ht : NewTicker tickerPeriod = some ⟨1666666666⟩ := by decide
    simp only [refreshBody, ht]
  · intro k
    simp only [Ticker.tickTime, hp, hd]
    push_cast
    refine ⟨?_, ?_, ?_⟩ <;> omega

/-! ## What a call does to the handle -/

theorem hasEntry_some {σ : Type} (rrl : RedisReentrantLock σ) (f : String → Option GoInt)
    (hm : rrl.locks = some f) : hasEntry rrl = (f rrl.Key).isSome := by
  simp [hasEntry, hm, GoMap.lookup]

/-- The cases of Lock on a handle whose counter map is not nil: reentrant, refused (SetNX
failed or reported false), or acquired. In all of them Key, Value and Client are kept. -/
theorem Lock_cases {σ : Type} (rrl : RedisReentrantLock σ) (ctx : Context) (w : World σ)
    (f : String → Option GoInt) (hm : rrl.locks = some f) :
    (∃ c, f rrl.Key = some c ∧
      Lock rrl ctx w = ⟨Ret.returned true none,
        ⟨rrl.Client, rrl.Key, rrl.Value,
          some (fun j => if j = rrl.Key then some (c.add GoInt.one) else f j), rrl.cancelFunc⟩,
        w, []⟩) ∨
    (f rrl.Key = none ∧ (Lock rrl ctx w).rrl = rrl ∧
      (Lock rrl ctx w).events = [Event.SetNX ctx rrl.Key rrl.Value 0] ∧
      ∃ err, (Lock rrl ctx w).ret = Ret.returned false (some err)) ∨
    (f rrl.Key = none ∧
      Lock rrl ctx w = ⟨Ret.returned true none,
        ⟨rrl.Client, rrl.Key, rrl.Value,
          some (fun j => if j = rrl.Key then some GoInt.one else f j),
          some ⟨Context.withCancel ctx w.nextCtx⟩⟩,
        ⟨(rrl.Client.SetNX ctx rrl.Key rrl.Value 0 w.store).2, w.nextCtx + 1⟩,
        [Event.SetNX ctx rrl.Key rrl.Value 0,
          Event.goRefresh (Context.withCancel ctx w.nextCtx)]⟩) := by
  cases hf : f rrl.Key with
  | some c => exact Or.inl ⟨c, rfl, Lock_of_entry rrl ctx w f c hm hf⟩
  | none =>
    right
    cases he : (rrl.Client.SetNX ctx rrl.Key rrl.Value 0 w.store).1.2 with
    | some err =>
      left
      simp [Lock, hm, GoMap.lookup, hf, he]
    | none =>
      cases hb : (rrl.Client.SetNX ctx rrl.Key rrl.Value 0 w.store).1.1 with
      | false =>
        left
        simp [Lock, hm, GoMap.lookup, hf, he, hb]
      | true =>
        right
        refine ⟨rfl, Lock_fresh rrl ctx w f hm hf ?_⟩
        exact Prod.ext hb he

/-- The cases of Unlock on a handle whose counter map is not nil: no entry, nested release,
or final release. In all of them Key, Value, Client and the cancel function are kept. -/
theorem Unlock_cases {σ : Type} (rrl : RedisReentrantLock σ) (ctx : Context) (w : World σ)
    (f : String → Option GoInt) (hm : rrl.locks = some f) :
    (f rrl.Key = none ∧ Unlock rrl ctx w = ⟨Ret.returned true none, rrl, w, []⟩) ∨
    (∃ c, f rrl.Key = some c ∧ c.val ≠ 1 ∧
      Unlock rrl ctx w = ⟨Ret.returned true none,
        ⟨rrl.Client, rrl.Key, rrl.Value,
          some (fun j => if j = rrl.Key then some (c.sub GoInt.one) else f j), rrl.cancelFunc⟩,
        w, []⟩) ∨
    (∃ c, f rrl.Key = some c ∧ c.val = 1 ∧
      (Unlock rrl ctx w).rrl = ⟨rrl.Client, rrl.Key, rrl.Value,
        some (fun j => if j = rrl.Key then none else f j), rrl.cancelFunc⟩) := by
  cases hf : f rrl.Key with
  | none =>
    left
    exact ⟨rfl, Unlock_of_none rrl ctx w (by simp [hm, GoMap.lookup, hf])⟩
  | some c =>
    right
    by_cases h1 : c.val = 1
    · right
      refine ⟨c, rfl, h1, ?_⟩
      have hc : rrl.locks.lookup rrl.Key = some c := by simp [hm, GoMap.lookup, hf]
      rw [(Unlock_of_one_state rrl ctx w c hc h1).1, hm]
      rfl
    · left
      exact ⟨c, rfl, h1, Unlock_of_entry rrl ctx w f c hm hf h1⟩

/-! ## The counter invariant -/

theorem CounterInv_mono {σ : Type} (key : String) (n m : Int) (rrl : RedisReentrantLock σ)
    (h : CounterInv key n rrl) (hnm : n ≤ m) : CounterInv key m rrl := by
  obtain ⟨hk, hm, ho, hc⟩ := h
  exact ⟨hk, hm, ho, fun c hcc => ⟨(hc c hcc).1, le_trans (hc c hcc).2 hnm⟩⟩

/-- One call keeps the counter invariant, with one more call counted, as long as the count
stays within the range of int. -/
theorem CounterInv_call {σ : Type} (key : String) (n : Int) (op : Op)
    (rrl : RedisReentrantLock σ) (w : World σ) (h : CounterInv key n rrl) (h0 : 0 ≤ n)
    (hn : n < 9223372036854775807) : CounterInv key (n + 1) (call op rrl w).rrl := by
  have hmono := CounterInv_mono key n (n + 1) rrl h (by omega)
  obtain ⟨hk, hm, ho, hc⟩ := h
  cases hl : rrl.locks with
  | none => exact absurd hl hm
  | some f =>
    have hof : ∀ k, k ≠ key → f k = none := by
      intro k hkk
      have := ho k hkk
      simpa [hl, GoMap.lookup] using this
    have hcf : ∀ c, f key = some c → 1 ≤ c.val ∧ c.val ≤ n := by
      intro c hcc
      exact hc c (by simpa [hl, GoMap.lookup] using hcc)
    cases op with
    | lock ctx =>
      simp only [call]
      rcases Lock_cases rrl ctx w f hl with ⟨c, hfc, he⟩ | ⟨-, he, -, -⟩ | ⟨-, he⟩
      · rw [he]
        rw [hk] at hfc
        obtain ⟨c1, c2⟩ := hcf c hfc
        refine ⟨hk, by simp, ?_, ?_⟩
        · intro k hkk
          simp [GoMap.lookup, hk, hkk, hof k hkk]
        · intro c' hc'
          simp only [GoMap.lookup, hk, if_true, Option.some.injEq] at hc'
          subst hc'
          rw [GoInt.add_one_val c (by omega)]
          omega
      · rw [he]
        exact hmono
      · rw [he]
        refine ⟨hk, by simp, ?_, ?_⟩
        · intro k hkk
          simp [GoMap.lookup, hk, hkk, hof k hkk]
        · intro c' hc'
          simp only [GoMap.lookup, hk, if_true, Option.some.injEq] at hc'
          subst hc'
          simp only [GoInt.one]
          omega
    | unlock ctx =>
      simp only [call]
      rcases Unlock_cases rrl ctx w f hl with ⟨-, he⟩ | ⟨c, hfc, h1, he⟩ | ⟨c, -, -, he⟩
      · rw [he]
        exact hmono
      · rw [he]
        rw [hk] at hfc
        obtain ⟨c1, c2⟩ := hcf c hfc
        refine ⟨hk, by simp, ?_, ?_⟩
        · intro k hkk
          simp [GoMap.lookup, hk, hkk, hof k hkk]
        · intro c' hc'
          simp only [GoMap.lookup, hk, if_true, Option.some.injEq] at hc'
          subst hc'
          rw [GoInt.sub_one_val c (by omega)]
          omega
      · rw [he]
        refine ⟨hk, by simp, ?_, ?_⟩
        · intro k hkk
          simp [GoMap.lookup, hk, hkk, hof k hkk]
        · intro c' hc'
          simp [GoMap.lookup, hk] at hc'

/-- A sequence of calls keeps the counter invariant, every call counted. -/
theorem CounterInv_run {σ : Type} (key : String) (ops : List Op) (n : Int)
    (rrl : RedisReentrantLock σ) (w : World σ) (h : CounterInv key n rrl) (h0 : 0 ≤ n)
    (hn : n + ops.length ≤ 9223372036854775807) :
    CounterInv key (n + ops.length) (endHandle ops rrl w) := by
  induction ops generalizing n rrl w with
  | nil => simpa [endHandle] using h
  | cons op rest ih =>
    simp only [List.length_cons, Nat.cast_add, Nat.cast_one] at hn ⊢
    have hstep := CounterInv_call key n op rrl w h h0 (by omega)
    have := ih (n + 1) (call op rrl w).rrl (call op rrl w).world hstep (by omega) (by omega)
    simp only [endHandle]
    have he : n + ((rest.length : Int) + 1) = n + 1 + rest.length := by ring
    rw [he]
    exact this

/-- C17: after fewer than 2^63 calls of Lock and Unlock on a handle that started with an
empty counter map, whatever the client replies, the counter map has no key other than Key and
an entry for Key is at least 1; so the handle has an entry exactly when its counter is
greater than 0. -/
theorem counter_invariant {σ : Type} (rrl : RedisReentrantLock σ) (w : World σ)
    (ops : List Op) (hl : rrl.locks = GoMap.empty)
    (hn : (ops.length : Int) < 9223372036854775808) :
    (∀ k, k ≠ rrl.Key → (endHandle ops rrl w).locks.lookup k = none) ∧
    (∀ c, (endHandle ops rrl w).locks.lookup rrl.Key = some c → 1 ≤ c.val) ∧
    (endHandle ops rrl w).Key = rrl.Key ∧
    hasEntry (endHandle ops rrl w) = counterPos (endHandle ops rrl w) := by
  have h0 : CounterInv rrl.Key 0 rrl := by
    refine ⟨rfl, by simp [hl, GoMap.empty], ?_, ?_⟩
    · intro k _
      simp [hl, GoMap.empty, GoMap.lookup]
    · intro c hc
      simp [hl, GoMap.empty, GoMap.lookup] at hc
  obtain ⟨hk, -, ho, hc⟩ := CounterInv_run rrl.Key ops 0 rrl w h0 (le_refl 0) (by omega)
  refine ⟨ho, fun c hcc => (hc c hcc).1, hk, ?_⟩
  unfold hasEntry counterPos
  rw [hk]
  cases hlk : (endHandle ops rrl w).locks.lookup rrl.Key with
  | none => rfl
  | some c =>
    have := (hc c hlk).1
    simp only [Option.isSome_some]
    exact (decide_eq_true (by omega)).symm

theorem counter_invariant_witness :
    hasEntry (endHandle [Op.lock (Context.root 0), Op.lock (Context.root 0),
        Op.unlock (Context.root 0)] okHandle ⟨(), 0⟩) =
      counterPos (endHandle [Op.lock (Context.root 0), Op.lock (Context.root 0),
        Op.unlock (Context.root 0)] okHandle ⟨(), 0⟩) :=
  (counter_invariant okHandle ⟨(), 0⟩ [Op.lock (Context.root 0), Op.lock (Context.root 0),
    Op.unlock (Context.root 0)] rfl (by decide)).2.2.2

/-! ## The cancel function of a held handle -/

/-- One call keeps the cancel invariant and does not panic. -/
theorem CancelInv_call {σ : Type} (op : Op) (rrl : RedisReentrantLock σ) (w : World σ)
    (h : CancelInv rrl) :
    CancelInv (call op rrl w).rrl ∧ ∀ msg, (call op rrl w).ret ≠ Ret.panicked msg := by
  obtain ⟨hm, hcf⟩ := h
  cases hl : rrl.locks with
  | none => exact absurd hl hm
  | some f =>
    rw [hasEntry_some rrl f hl] at hcf
    cases op with
    | lock ctx =>
      simp only [call]
      rcases Lock_cases rrl ctx w f hl with ⟨c, hfc, he⟩ | ⟨hfn, he, -, err, hr⟩ | ⟨-, he⟩
      · rw [he]
        refine ⟨⟨by simp, fun _ => ?_⟩, fun msg hx => by cases hx⟩
        exact hcf (by rw [hfc]; rfl)
      · refine ⟨?_, fun msg hx => ?_⟩
        · rw [he]
          refine ⟨hm, fun hE => ?_⟩
          rw [hasEntry_some rrl f hl, hfn] at hE
          cases hE
        · rw [hr] at hx
          cases hx
      · rw [he]
        exact ⟨⟨by simp, fun _ => by simp⟩, fun msg hx => by cases hx⟩
    | unlock ctx =>
      simp only [call]
      rcases Unlock_cases rrl ctx w f hl with ⟨hfn, he⟩ | ⟨c, hfc, -, he⟩ | ⟨c, hfc, h1, he⟩
      · rw [he]
        refine ⟨⟨hm, fun hE => ?_⟩, fun msg hx => by cases hx⟩
        rw [hasEntry_some rrl f hl, hfn] at hE
        cases hE
      · rw [he]
        refine ⟨⟨by simp, fun _ => ?_⟩, fun msg hx => by cases hx⟩
        exact hcf (by rw [hfc]; rfl)
      · refine ⟨?_, fun msg hx => ?_⟩
        · rw [he]
          refine ⟨by simp, fun hE => ?_⟩
          simp [hasEntry, GoMap.lookup] at hE
        · have hc : rrl.locks.lookup rrl.Key = some c := by simp [hl, GoMap.lookup, hfc]
          have hne : rrl.cancelFunc ≠ none := hcf (by rw [hfc]; rfl)
          rw [Unlock_of_one rrl ctx w c hc h1] at hx
          cases hg : rrl.cancelFunc with
          | none => exact hne hg
          | some g =>
            rw [hg] at hx
            cases he2 : (rrl.Client.Eval ctx script [rrl.Key] [rrl.Value] w.store).1.2 with
            | some err =>
              rw [he2] at hx
              cases hx
            | none =>
              rw [he2] at hx
              by_cases hz :
                  (rrl.Client.Eval ctx script [rrl.Key] [rrl.Value] w.store).1.1.eqZero = true
              · rw [if_pos hz] at hx
                cases hx
              · rw [if_neg hz] at hx
                cases hx

/-- A sequence of calls keeps the cancel invariant, and none of its calls panics. -/
theorem CancelInv_run {σ : Type} (ops : List Op) (rrl : RedisReentrantLock σ) (w : World σ)
    (h : CancelInv rrl) :
    CancelInv (endHandle ops rrl w) ∧
    ∀ o ∈ runOps ops rrl w, ∀ msg, o.ret ≠ Ret.panicked msg := by
  induction ops generalizing rrl w with
  | nil => exact ⟨h, fun o ho => absurd ho (List.not_mem_nil o)⟩
  | cons op rest ih =>
    obtain ⟨hi, hp⟩ := CancelInv_call op rrl w h
    obtain ⟨i1, i2⟩ := ih (call op rrl w).rrl (call op rrl w).world hi
    refine ⟨i1, fun o ho => ?_⟩
    simp only [runOps, List.mem_cons] at ho
    rcases ho with ho | ho
    · rw [ho]
      exact hp
    · exact i2 o ho

/-- C18: after any sequence of calls of Lock and Unlock on a handle that started with an
empty counter map and a nil cancel function, whatever the client replies, a handle with a
counter entry for Key has a cancel function that is not nil; no call of the sequence panics,
so the call of the cancel function in Unlock is never a call of a nil function. -/
theorem cancel_never_nil {σ : Type} (rrl : RedisReentrantLock σ) (w : World σ)
    (ops : List Op) (hl : rrl.locks = GoMap.empty) (_ : rrl.cancelFunc = none) :
    (hasEntry (endHandle ops rrl w) = true → (endHandle ops rrl w).cancelFunc ≠ none) ∧
    (∀ o ∈ runOps ops rrl w, ∀ msg, o.ret ≠ Ret.panicked msg) := by
  have h0 : CancelInv rrl := by
    refine ⟨by simp [hl, GoMap.empty], fun hE => ?_⟩
    simp [hasEntry, hl, GoMap.empty, GoMap.lookup] at hE
  obtain ⟨⟨-, h1⟩, h2⟩ := CancelInv_run ops rrl w h0
  exact ⟨h1, h2⟩

theorem cancel_never_nil_witness :
    hasEntry (endHandle [Op.lock (Context.root 0)] okHandle ⟨(), 0⟩) = true ∧
    (endHandle [Op.lock (Context.root 0)] okHandle ⟨(), 0⟩).cancelFunc ≠ none :=
  ⟨by decide,
    (cancel_never_nil okHandle ⟨(), 0⟩ [Op.lock (Context.root 0)] rfl rfl).1 (by decide)⟩

/-! ## The renewers of one handle -/

theorem Context.under_self (c : Context) : Context.under c c = true := by
  cases c <;> simp [Context.under]

/-- The final release when Eval succeeds with an integer of at least 1: its events. -/
theorem Unlock_of_one_events {σ : Type} (rrl : RedisReentrantLock σ) (ctx : Context)
    (w : World σ) (c : GoInt) (g : CancelFunc) (hc : rrl.locks.lookup rrl.Key = some c)
    (h1 : c.val = 1) (hg : rrl.cancelFunc = some g) (hcl : EvalSucceeds rrl.Client) :
    (Unlock rrl ctx w).events =
      [Event.Eval ctx script [rrl.Key] [rrl.Value], Event.cancelCall g] := by
  obtain ⟨n, hn, hr⟩ := hcl ctx script [rrl.Key] [rrl.Value] w.store
  have hn0 : ¬ n = 0 := by omega
  rw [Unlock_of_one rrl ctx w c hc h1]
  rcases hr with hr | hr <;> simp [hr, GoAny.eqZero, hg, hn0]

/-- One call keeps the renewer invariant when every Eval succeeds with an integer of at
least 1. -/
theorem RenewerInv_call {σ : Type} (op : Op) (rrl : RedisReentrantLock σ) (w : World σ)
    (act : List Context) (hcl : EvalSucceeds rrl.Client) (h : RenewerInv rrl act) :
    RenewerInv (call op rrl w).rrl ((call op rrl w).events.foldl trackRenewer act) ∧
    (call op rrl w).rrl.Client = rrl.Client := by
  obtain ⟨hm, hheld, hfree⟩ := h
  cases hl : rrl.locks with
  | none => exact absurd hl hm
  | some f =>
    rw [hasEntry_some rrl f hl] at hheld hfree
    cases op with
    | lock ctx =>
      simp only [call]
      rcases Lock_cases rrl ctx w f hl with ⟨c, hfc, he⟩ | ⟨hfn, he, hev, -⟩ | ⟨hfn, he⟩
      · rw [he]
        refine ⟨⟨by simp, fun _ => ?_, fun hE => ?_⟩, rfl⟩
        · exact hheld (by rw [hfc]; rfl)
        · simp [hasEntry, GoMap.lookup] at hE
      · rw [hev, he]
        refine ⟨⟨hm, fun hE => ?_, fun _ => ?_⟩, rfl⟩
        · rw [hasEntry_some rrl f hl, hfn] at hE
          cases hE
        · simpa [trackRenewer] using hfree (by rw [hfn]; rfl)
      · rw [he]
        have hact : act = [] := hfree (by rw [hfn]; rfl)
        refine ⟨⟨by simp, fun _ => ?_, fun hE => ?_⟩, rfl⟩
        · exact ⟨⟨Context.withCancel ctx w.nextCtx⟩, rfl, by simp [trackRenewer, hact]⟩
        · simp [hasEntry, GoMap.lookup] at hE
    | unlock ctx =>
      simp only [call]
      rcases Unlock_cases rrl ctx w f hl with ⟨hfn, he⟩ | ⟨c, hfc, -, he⟩ | ⟨c, hfc, h1, he⟩
      · rw [he]
        refine ⟨⟨hm, fun hE => ?_, fun _ => ?_⟩, rfl⟩
        · rw [hasEntry_some rrl f hl, hfn] at hE
          cases hE
        · simpa using hfree (by rw [hfn]; rfl)
      · rw [he]
        refine ⟨⟨by simp, fun _ => ?_, fun hE => ?_⟩, rfl⟩
        · exact hheld (by rw [hfc]; rfl)
        · simp [hasEntry, GoMap.lookup] at hE
      · obtain ⟨g, hg, hact⟩ := hheld (by rw [hfc]; rfl)
        have hc : rrl.locks.lookup rrl.Key = some c := by simp [hl, GoMap.lookup, hfc]
        rw [Unlock_of_one_events rrl ctx w c g hc h1 hg hcl, he]
        refine ⟨⟨by simp, fun hE => ?_, fun _ => ?_⟩, rfl⟩
        · simp [hasEntry, GoMap.lookup] at hE
        · simp [trackRenewer, hact, Context.under_self]

/-- A sequence of calls keeps the renewer invariant when every Eval succeeds with an integer
of at least 1. -/
theorem RenewerInv_run {σ : Type} (ops : List Op) (rrl : RedisReentrantLock σ) (w : World σ)
    (act : List Context) (hcl : EvalSucceeds rrl.Client) (h : RenewerInv rrl act) :
    RenewerInv (endHandle ops rrl w) ((traceOps ops rrl w).foldl trackRenewer act) := by
  induction ops generalizing rrl w act with
  | nil => exact h
  | cons op rest ih =>
    obtain ⟨hi, hc⟩ := RenewerInv_call op rrl w act hcl h
    simp only [endHandle, traceOps, List.foldl_append]
    exact ih (call op rrl w).rrl (call op rrl w).world _ (by rw [hc]; exact hcl) hi

/-- C13 (as amended): after any sequence of calls of Lock and Unlock on a handle that started
with an empty counter map, under arbitrary replies of SetNX and with every Eval succeeding with
an integer of at least 1, at most one renewer is started and not yet cancelled, and a Lock
that starts a renewer finds none running. -/
theorem one_renewer {σ : Type} (rrl : RedisReentrantLock σ) (w : World σ) (ops : List Op)
    (hl : rrl.locks = GoMap.empty) (hcl : EvalSucceeds rrl.Client) :
    (activeRenewers (traceOps ops rrl w)).length ≤ 1 ∧
    (∀ ctx c, Event.goRefresh c ∈
        (Lock (endHandle ops rrl w) ctx (endWorld ops rrl w)).events →
      activeRenewers (traceOps ops rrl w) = []) := by
  have h0 : RenewerInv rrl [] := by
    refine ⟨by simp [hl, GoMap.empty], fun hE => ?_, fun _ => rfl⟩
    simp [hasEntry, hl, GoMap.empty, GoMap.lookup] at hE
  obtain ⟨-, hheld, hfree⟩ := RenewerInv_run ops rrl w [] hcl h0
  constructor
  · unfold activeRenewers
    cases hE : hasEntry (endHandle ops rrl w) with
    | true =>
      obtain ⟨g, -, hact⟩ := hheld hE
      rw [hact]
      exact le_refl 1
    | false =>
      rw [hfree hE]
      exact Nat.zero_le 1
  · intro ctx c hmem
    unfold activeRenewers
    apply hfree
    rcases Lock_events (endHandle ops rrl w) ctx (endWorld ops rrl w) with
      ⟨h, -⟩ | ⟨h, -⟩ | ⟨-, hn⟩
    · rw [h] at hmem
      exact absurd hmem (List.not_mem_nil _)
    · rw [h] at hmem
      simp at hmem
    · simp [hasEntry, hn]

theorem one_renewer_witness :
    (activeRenewers (traceOps [Op.lock (Context.root 0), Op.unlock (Context.root 0),
      Op.lock (Context.root 0)] okHandle ⟨(), 0⟩)).length ≤ 1 :=
  (one_renewer okHandle ⟨(), 0⟩ [Op.lock (Context.root 0), Op.unlock (Context.root 0),
    Op.lock (Context.root 0)] rfl (fun _ _ _ _ _ => ⟨1, by decide, Or.inl rfl⟩)).1

/-- C13 (as stated) fails when a final release fails: the handle is acquired (SetNX reports
true), the final Unlock gets an error from Eval and leaves the renewer running, the next Lock
is granted the key again and starts a second renewer, so two renewers are started and not
cancelled. -/
theorem two_renewers_after_failed_release :
    (runOps [Op.lock (Context.root 0), Op.unlock (Context.root 0), Op.lock (Context.root 0)]
      failHandle ⟨(), 0⟩).map Outcome.ret =
      [Ret.returned true none, Ret.returned false (some (GoError.fromClient 7)),
        Ret.returned true none] ∧
    activeRenewers (traceOps [Op.lock (Context.root 0), Op.unlock (Context.root 0)]
      failHandle ⟨(), 0⟩) = [Context.withCancel (Context.root 0) 0] ∧
    activeRenewers (traceOps [Op.lock (Context.root 0), Op.unlock (Context.root 0),
      Op.lock (Context.root 0)] failHandle ⟨(), 0⟩) =
      [Context.withCancel (Context.root 0) 0, Context.withCancel (Context.root 0) 1] ∧
    ¬ (activeRenewers (traceOps [Op.lock (Context.root 0), Op.unlock (Context.root 0),
      Op.lock (Context.root 0)] failHandle ⟨(), 0⟩)).length ≤ 1 := by
  refine ⟨by decide, by decide, by decide, by decide⟩

end RedisLock
